import Mathlib

/-!
# Verification of the chemfiles PDB / POSCAR codecs, topology derivations and
# selection language

This file gives a shallow embedding, in Lean 4, of the parts of the chemfiles
library relevant to its specification: the PDB reader and writer
(`src/formats/PDB.cpp`), the POSCAR stub (`src/formats/POSCAR.cpp`), the
topology angle derivation, the trajectory frame index, the hybrid-36
encoding, and the selection parser/printer.

Files are modelled as lists of lines (`List String`); a file position is the
index of the next line to read.  Every line read advances the byte position
by at least one byte, and a byte position of `0` corresponds exactly to a
line index of `0`, so this abstraction is faithful for all the position
tests appearing in the code (`tellpos() != 0`, `position == 0`).
`file_.eof()` corresponds to the position having reached the end of the
list, and `file_.readline()` at end of file returns an empty string without
moving the position.
-/

set_option maxRecDepth 100000

/-- ASCII whitespace, as used by the chemfiles `trim` helper. -/
def is_ascii_whitespace (c : Char) : Bool :=
  c = ' ' || c = '\t' || c = '\n' || c = '\r' || c = '\x0b' || c = '\x0c'

/-- chemfiles `trim`: strip leading and trailing whitespace. -/
def trim (s : String) : String :=
  String.mk ((((s.toList.dropWhile is_ascii_whitespace).reverse).dropWhile
    is_ascii_whitespace).reverse)

/-- The PDB record kinds recognised by chemfiles (enum `Record` in PDB.cpp). -/
inductive Record where
  | HEADER | TITLE | CRYST1 | ATOM | HETATM | CONECT
  | MODEL | ENDMDL | TER | END | HELIX | SHEET | TURN
  | IGNORED_ | UNKNOWN_
deriving DecidableEq, Repr

/-- The records silently skipped by the reader (`get_record` in PDB.cpp). -/
def ignored_records : List String :=
  ["REMARK", "MASTER", "AUTHOR", "CAVEAT", "COMPND", "EXPDTA",
   "KEYWDS", "OBSLTE", "SOURCE", "SPLIT ", "SPRSDE", "JRNL  ",
   "SEQRES", "HET   ", "REVDAT", "SCALE1", "SCALE2", "SCALE3",
   "ORIGX1", "ORIGX2", "ORIGX3", "ANISOU", "SITE  ", "FORMUL",
   "DBREF ", "HETNAM", "HETSYN", "SSBOND", "LINK  ", "SEQADV",
   "MODRES", "CISPEP"]

/-- `get_record` from PDB.cpp: classify a line by its first six columns.
`line.substr(0, 6)` clamps at the end of the line, as does `String.take`. -/
def get_record (line : String) : Record :=
  let rec6 := line.take 6
  if rec6 = "ENDMDL" then .ENDMDL
  else if rec6.take 3 = "END" then .END
  else if rec6 = "CRYST1" then .CRYST1
  else if rec6 = "ATOM  " then .ATOM
  else if rec6 = "HETATM" then .HETATM
  else if rec6 = "CONECT" then .CONECT
  else if rec6.take 5 = "MODEL" then .MODEL
  else if rec6.take 3 = "TER" then .TER
  else if rec6 = "HELIX " then .HELIX
  else if rec6 = "SHEET " then .SHEET
  else if rec6 = "TURN  " then .TURN
  else if rec6 = "HEADER" then .HEADER
  else if rec6 = "TITLE " then .TITLE
  else if rec6 ∈ ignored_records then .IGNORED_
  else if (trim line).isEmpty then .IGNORED_
  else .UNKNOWN_

/-- Number of lines consumed by one `PDBFormat::read_next` call starting at
the head of `lines`.  This mirrors the `while (!got_end && !file_.eof())`
loop: every record other than `END`/`ENDMDL` is processed and the loop
continues; an `END` record sets `got_end`; an `ENDMDL` record peeks at the
next line (restoring the position) and sets `got_end` unless the next line
is an `END` record, in which case the loop simply continues and the `END`
record is consumed by a later iteration. -/
def read_next_consumed : List String → Nat
  | [] => 0
  | line :: rest =>
    if get_record line = .END then 1
    else if get_record line = .ENDMDL then
      match rest with
      | [] => 1
      | next :: _ => if get_record next = .END then 1 + read_next_consumed rest else 1
    else 1 + read_next_consumed rest

/-- Number of lines consumed by the scanning loop of `PDBFormat::forward`,
or `none` when the loop reaches end of file without returning.  Note that
`forward` peeks after an `ENDMDL` line with the three-character test
`next.substr(0, 3) == "END"`, and detects the frame end with
`line.substr(0, 3) == "END"` (which is also true of `ENDMDL` itself). -/
def forward_consumed : List String → Option Nat
  | [] => none
  | line :: rest =>
    if line.take 6 = "ENDMDL" then
      match rest with
      | [] => some 1
      | next :: _ =>
        if next.take 3 = "END" then (forward_consumed rest).map (1 + ·)
        else some 1
    else if line.take 3 = "END" then some 1
    else (forward_consumed rest).map (1 + ·)

/-- `PDBFormat::forward`: returns the byte position of the start of the next
frame (modelled as a line index) or `none` at end of file, together with the
file position after the call.  A file without any `END`/`ENDMDL` record
counts as a single frame when scanning starts at position `0`. -/
def pdb_forward (lines : List String) (pos : Nat) : Option Nat × Nat :=
  match forward_consumed (lines.drop pos) with
  | some k => (some pos, pos + k)
  | none => (if pos = 0 then some 0 else none, lines.length)

/-- Modelled from the spec: the trajectory frame index (§4.4, not under
`src/`).  "On first need (`nsteps`, `read_step`), the engine calls `forward`
repeatedly from the current position until EOF, recording each returned
offset."  The auxiliary fuel bounds the iteration; every successful
`forward` call on a non-empty file advances the position by at least one
line, so `lines.length + 1` units of fuel are always sufficient. -/
def trajectory_index_aux : Nat → List String → Nat → List Nat
  | 0, _, _ => []
  | fuel + 1, lines, pos =>
    match pdb_forward lines pos with
    | (some off, newpos) =>
      off :: (if pos < newpos then trajectory_index_aux fuel lines newpos else [])
    | (none, _) => []

/-- Modelled from the spec: the vector of step start positions (§4.4). -/
def trajectory_index (lines : List String) : List Nat :=
  trajectory_index_aux (lines.length + 1) lines 0

/-- Modelled from the spec: `Trajectory::nsteps` (§4.4). -/
def nsteps (lines : List String) : Nat := (trajectory_index lines).length

/-- The segment of the file consumed by a `read_next` call starting at
`pos`.  Two `read_next` calls that consume equal segments decode equal
frames, so frame equality is modelled as segment equality. -/
def frame_lines (lines : List String) (pos : Nat) : List String :=
  (lines.drop pos).take (read_next_consumed (lines.drop pos))

/-- Modelled from the spec: `read_step(n)` seeks to `index[n]` and calls
`read_next` (§4.4); the frame it returns is decoded from this segment. -/
def read_step_lines (lines : List String) (n : Nat) : List String :=
  frame_lines lines ((trajectory_index lines).getD n 0)

/-- Start position of the `i`-th purely sequential `read` on a fresh
trajectory: each `read_next` call advances the position by the number of
lines it consumed. -/
def seq_read_pos (lines : List String) : Nat → Nat
  | 0 => 0
  | i + 1 => seq_read_pos lines i + read_next_consumed (lines.drop (seq_read_pos lines i))

/-- The segment consumed by the `i`-th sequential read. -/
def seq_read_lines (lines : List String) (i : Nat) : List String :=
  frame_lines lines (seq_read_pos lines i)

/-! ## Basic stepping lemmas for the `read_next` loop -/

lemma read_next_consumed_cons_other (line : String) (rest : List String)
    (h1 : get_record line ≠ .END) (h2 : get_record line ≠ .ENDMDL) :
    read_next_consumed (line :: rest) = 1 + read_next_consumed rest := by
  simp [read_next_consumed, h1, h2]

lemma read_next_consumed_cons_end (line : String) (rest : List String)
    (h : get_record line = .END) :
    read_next_consumed (line :: rest) = 1 := by
  simp [read_next_consumed, h]

lemma read_next_consumed_cons_endmdl_end (line next : String) (rest : List String)
    (h : get_record line = .ENDMDL) (h2 : get_record next = .END) :
    read_next_consumed (line :: next :: rest) = 1 + read_next_consumed (next :: rest) := by
  simp [read_next_consumed, h, h2]

lemma read_next_consumed_cons_endmdl_stop (line : String) (rest : List String)
    (h : get_record line = .ENDMDL)
    (h2 : ∀ next ∈ rest.head?, get_record next ≠ .END) :
    read_next_consumed (line :: rest) = 1 := by
  cases rest with
  | nil => simp [read_next_consumed, h]
  | cons next tl =>
    have := h2 next (by simp)
    simp [read_next_consumed, h, this]

/-- **C1.** `PDBFormat::read_next` ends the frame at the first `ENDMDL` or
`END` record: if all lines before `e` are neither `END` nor `ENDMDL`
records, the read consumes exactly the lines up to and including `e` —
except that an `ENDMDL` record immediately followed by an `END` record
absorbs that `END` record into the same frame, so the read consumes one
more line and the next read starts after the `END` record. -/
theorem read_next_frame_boundary (pre post : List String) (e : String)
    (hpre : ∀ l ∈ pre, get_record l ≠ .END ∧ get_record l ≠ .ENDMDL)
    (he : get_record e = .END ∨ get_record e = .ENDMDL) :
    read_next_consumed (pre ++ e :: post) =
      pre.length +
        (if get_record e = .ENDMDL ∧ post.head?.map get_record = some .END
         then 2 else 1) := by
  induction pre with
  | nil =>
    simp only [List.nil_append, List.length_nil, Nat.zero_add]
    rcases he with hEnd | hMdl
    · rw [read_next_consumed_cons_end _ _ hEnd]
      have : ¬ (get_record e = .ENDMDL ∧ post.head?.map get_record = some .END) := by
        rintro ⟨h1, -⟩; rw [hEnd] at h1; exact absurd h1 (by decide)
      rw [if_neg this]
    · cases post with
      | nil =>
        rw [read_next_consumed_cons_endmdl_stop _ _ hMdl (by simp)]
        simp
      | cons next tl =>
        by_cases hnext : get_record next = .END
        · rw [read_next_consumed_cons_endmdl_end _ _ _ hMdl hnext,
            read_next_consumed_cons_end _ _ hnext, if_pos ⟨hMdl, by simp [hnext]⟩]
        · rw [read_next_consumed_cons_endmdl_stop _ _ hMdl (by simpa using hnext)]
          rw [if_neg (by simp [hnext])]
  | cons l pre ih =>
    have hl := hpre l (by simp)
    rw [List.cons_append, read_next_consumed_cons_other _ _ hl.1 hl.2,
      ih (fun x hx => hpre x (by simp [hx]))]
    simp [List.length_cons]
    omega

/-- Witness for C1: a model with one atom, closed by `ENDMDL` immediately
followed by `END`, consumes all three lines (the `END` is absorbed), and the
next read starts after it. -/
theorem read_next_frame_boundary_witness :
    (∀ l ∈ ["ATOM      1  N   ALA A   1      11.104   6.134  -6.504"],
        get_record l ≠ .END ∧ get_record l ≠ .ENDMDL) ∧
    read_next_consumed
      ["ATOM      1  N   ALA A   1      11.104   6.134  -6.504",
       "ENDMDL", "END", "ATOM      2"] = 3 := by
  refine ⟨by decide, ?_⟩
  have h := read_next_frame_boundary
    ["ATOM      1  N   ALA A   1      11.104   6.134  -6.504"]
    ["END", "ATOM      2"] "ENDMDL" (by decide) (by decide)
  simpa using h

/-! ## PDB reader: records, atoms, residues

The reader state and the record handlers of `PDBFormat` are embedded below.
Column extraction `line.substr(start, len)` clamps at the end of the line,
matching `(s.drop start).take len`.  Secondary-structure bookkeeping
(`HELIX`/`SHEET`/`TURN` records, `secinfo_`, `current_secinfo_`) only
attaches a string property to residues and does not interact with atom
parsing, serial offsets, frame boundaries, bonds or residue registration,
so it is not modelled.  Doubles are modelled as rationals. -/

/-- `line.substr(start, len)` on a chemfiles `string_view`. -/
def col (s : String) (start len : Nat) : String := (s.drop start).take len

/-- Value of a base-36 digit using upper-case letters, if valid. -/
def digit36_upper (c : Char) : Option Nat :=
  if '0' ≤ c ∧ c ≤ '9' then some (c.toNat - '0'.toNat)
  else if 'A' ≤ c ∧ c ≤ 'Z' then some (c.toNat - 'A'.toNat + 10)
  else none

/-- Value of a base-36 digit using lower-case letters, if valid. -/
def digit36_lower (c : Char) : Option Nat :=
  if '0' ≤ c ∧ c ≤ '9' then some (c.toNat - '0'.toNat)
  else if 'a' ≤ c ∧ c ≤ 'z' then some (c.toNat - 'a'.toNat + 10)
  else none

/-- Read a base-36 numeral with the given digit reader. -/
def parse_base36 (f : Char → Option Nat) (cs : List Char) : Option Nat :=
  cs.foldl
    (fun acc c =>
      match acc, f c with
      | some a, some d => some (36 * a + d)
      | _, _ => none)
    (some 0)

/-- Read a non-empty decimal numeral. -/
def parse_decimal_nat (cs : List Char) : Option Nat :=
  if cs.isEmpty then none
  else
    cs.foldl
      (fun acc c =>
        match acc, c.isDigit with
        | some a, true => some (10 * a + (c.toNat - '0'.toNat))
        | _, _ => none)
      (some 0)

/-- Modelled from the spec: hybrid-36 decoding (§6, `decode_hybrid36` is not
under `src/`).  For width `w`: a (possibly signed) right-justified decimal
numeral decodes as itself; a numeral of exactly `w` base-36 digits led by an
upper-case letter decodes into the range starting at `10^w`; a lower-case
one into the range starting at `10^w + 26·36^(w-1)`; an all-blank field
decodes to `0` (relied upon by the TER handler); anything else is a parse
error. -/
def decode_hybrid36 (width : Nat) (s : String) : Option Int :=
  let cs := (trim s).toList
  match cs with
  | [] => some 0
  | c :: rest =>
    if c = '-' then (parse_decimal_nat rest).map (fun n => -(n : Int))
    else if c.isDigit then (parse_decimal_nat cs).map (fun n => (n : Int))
    else if 'A' ≤ c ∧ c ≤ 'Z' then
      if cs.length = width then
        (parse_base36 digit36_upper cs).map
          (fun n => (n : Int) + 10 ^ width - 10 * 36 ^ (width - 1))
      else none
    else if 'a' ≤ c ∧ c ≤ 'z' then
      if cs.length = width then
        (parse_base36 digit36_lower cs).map
          (fun n => (n : Int) + 10 ^ width + 16 * 36 ^ (width - 1))
      else none
    else none

/-- chemfiles `parse<double>` restricted to plain decimal notation (the only
form PDB coordinate fields use): optional sign, integer digits, optional
fractional digits.  Returns the exact rational value. -/
def parse_rat (s : String) : Option Rat :=
  let cs := (trim s).toList
  let signed : Bool × List Char :=
    match cs with
    | '-' :: r => (true, r)
    | '+' :: r => (false, r)
    | r => (false, r)
  let ip := signed.2.takeWhile (·.isDigit)
  let rest := signed.2.dropWhile (·.isDigit)
  let val? : Option Rat :=
    match rest with
    | [] =>
      if ip.isEmpty then none
      else (parse_decimal_nat ip).map (fun n => (n : Rat))
    | '.' :: fr =>
      if fr.all (·.isDigit) ∧ ¬(ip.isEmpty ∧ fr.isEmpty) then
        some (((ip.foldl (fun a c => 10 * a + (c.toNat - '0'.toNat)) 0 : Nat) : Rat) +
          ((fr.foldl (fun a c => 10 * a + (c.toNat - '0'.toNat)) 0 : Nat) : Rat) /
            ((10 : Rat) ^ fr.length))
      else none
    | _ => none
  val?.map (fun v => if signed.1 then -v else v)

/-- An atom as decoded by `read_ATOM` (name, type, position, altloc). -/
structure PAtom where
  name : String
  typ : String
  x : Rat
  y : Rat
  z : Rat
  altloc : Option String
deriving DecidableEq, Repr

/-- A residue as built by `read_ATOM` (name, id, member atoms, and the
string properties the reader sets). -/
structure PResidue where
  name : String
  resid : Int
  atoms : List Nat
  insertion_code : Option String
  is_standard_pdb : Bool
  chainid : String
  chainname : String
deriving DecidableEq, Repr

/-- Key of the reader's `residues_` map: `(chainid, resid, insertion code)`. -/
abbrev ResKey := Char × Int × Char

/-- Strict lexicographic order on residue keys (the `std::map` order). -/
def reskey_lt (a b : ResKey) : Bool :=
  a.1 < b.1 || (a.1 = b.1 && (a.2.1 < b.2.1 || (a.2.1 = b.2.1 && a.2.2 < b.2.2)))

/-- Insert into the key-sorted association list modelling `residues_`. -/
def insert_residue (key : ResKey) (r : PResidue) :
    List (ResKey × PResidue) → List (ResKey × PResidue)
  | [] => [(key, r)]
  | e :: tl => if reskey_lt key e.1 then (key, r) :: e :: tl
               else e :: insert_residue key r tl

/-- Lookup in `residues_`. -/
def find_residue (key : ResKey) (l : List (ResKey × PResidue)) : Option PResidue :=
  (l.find? (fun e => e.1 = key)).map (·.2)

/-- Replace the value stored for `key` in `residues_`. -/
def update_residue (key : ResKey) (r : PResidue) :
    List (ResKey × PResidue) → List (ResKey × PResidue)
  | [] => []
  | e :: tl => if e.1 = key then (key, r) :: tl else e :: update_residue key r tl

/-- The frame contents populated by the PDB reader. -/
structure PFrame where
  atoms : List PAtom
  residues : List PResidue
  bonds : List (Nat × Nat)
  cell : Option (Rat × Rat × Rat × Rat × Rat × Rat)
deriving DecidableEq, Repr

def empty_frame : PFrame := ⟨[], [], [], none⟩

/-- `Topology::add_bond` (via `Frame::add_bond`): the bond set keeps the
smaller index first and silently ignores duplicates; a self bond or an
out-of-range index raises an `Error`. -/
def frame_add_bond (frame : PFrame) (i j : Nat) : Except String PFrame :=
  if i = j then .error "cannot have a bond between an atom and itself"
  else if frame.atoms.length ≤ i ∨ frame.atoms.length ≤ j then
    .error "out of bounds atomic index in add_bond"
  else
    let b := (min i j, max i j)
    if b ∈ frame.bonds then .ok frame
    else .ok { frame with bonds := frame.bonds ++ [b] }

/-- The mutable state of `PDBFormat` used while reading. -/
structure RState where
  residues_ : List (ResKey × PResidue)
  atom_offsets_ : List Nat
  models_ : Nat
  warnings : List String
deriving Repr

def warn (st : RState) (msg : String) : RState :=
  { st with warnings := st.warnings ++ [msg] }

/-- The serial-offset block at the top of `PDBFormat::read_ATOM`: the
serial of the first ATOM/HETATM record establishes the atom offset; a
serial that does not decode, or decodes to a value `≤ 0`, is reported as a
warning and replaced by an offset of `0` (the serial is assumed to be
`1`). -/
def atom_serial_offsets (line : String) (st : RState) : RState :=
  if st.atom_offsets_.isEmpty then
    match decode_hybrid36 5 (col line 6 5) with
    | some initial_offset =>
      if initial_offset ≤ 0 then
        warn { st with atom_offsets_ := [0] }
          "atom serial is too small, assuming id is 1"
      else { st with atom_offsets_ := [(initial_offset - 1).toNat] }
    | none =>
      warn { st with atom_offsets_ := [0] }
        "not a valid atom id, assuming 1"
  else st

/-- Atom name, type and altloc extraction in `read_ATOM` (position filled
in later): with at least 78 columns both name and type are read, otherwise
the type defaults to the name. -/
def read_ATOM_atom (line : String) (x y z : Rat) : PAtom :=
  { name := trim (col line 12 4),
    typ := if 78 ≤ line.length then trim (col line 76 2) else trim (col line 12 4),
    x := x, y := y, z := z,
    altloc := if col line 16 1 ≠ " " then some (col line 16 1) else none }

/-- The residue registration block of `read_ATOM`: decode `resSeq`, build
the `(chain, resid, insertion code)` key, and either create the residue or
extend it with the new atom; a non-decoding `resSeq` means no residue
information. -/
def read_ATOM_residue (line : String) (is_hetatm : Bool) (atom_id : Nat)
    (st : RState) : RState :=
  match decode_hybrid36 4 (col line 22 4) with
  | some resid =>
    let chain := line.toList.getD 21 ' '
    let inscode := line.toList.getD 26 ' '
    let key : ResKey := (chain, resid, inscode)
    match find_residue key st.residues_ with
    | none =>
      let residue : PResidue :=
        { name := trim (col line 17 3), resid := resid, atoms := [atom_id],
          insertion_code := if inscode ≠ ' ' then some (col line 26 1) else none,
          is_standard_pdb := !is_hetatm,
          chainid := col line 21 1, chainname := col line 21 1 }
      { st with residues_ := insert_residue key residue st.residues_ }
    | some r =>
      let r2 := { r with atoms := r.atoms ++ [atom_id] }
      { st with residues_ := update_residue key r2 st.residues_ }
  | none => st

/-- `PDBFormat::read_ATOM`: record length check, serial-offset handling,
atom name/type/altloc extraction, position parsing (fatal when malformed),
and residue registration. -/
def read_ATOM (line : String) (is_hetatm : Bool) (frame : PFrame) (st : RState) :
    Except String (PFrame × RState) :=
  if line.length < 54 then .error "ATOM record is too small"
  else
    let st := atom_serial_offsets line st
    match parse_rat (col line 30 8), parse_rat (col line 38 8), parse_rat (col line 46 8) with
    | some x, some y, some z =>
      let frame2 := { frame with atoms := frame.atoms ++ [read_ATOM_atom line x y z] }
      .ok (frame2, read_ATOM_residue line is_hetatm (frame2.atoms.length - 1) st)
    | _, _, _ => .error "could not read positions"

/-- `std::lower_bound` distance from the start, on a sorted list: the number
of elements smaller than `v`. -/
def lower_bound_count (l : List Nat) (v : Int) : Nat :=
  (l.filter (fun t : Nat => decide ((t : Int) < v))).length

/-- Index translation in `read_CONECT`: binary-search the offset table, then
subtract the head offset. -/
def conect_read_index (line : String) (st : RState) (initial : Nat) :
    Except String Nat :=
  match decode_hybrid36 5 (col line initial 5) with
  | some pdb_atom_id =>
    let corrected := pdb_atom_id - (lower_bound_count st.atom_offsets_ pdb_atom_id : Int)
    .ok (corrected - (st.atom_offsets_.headD 0 : Int)).toNat
  | none => .error "could not read atomic number in CONECT"

/-- The guarded `add_bond` lambda of `read_CONECT`: indexes outside the
frame produce a warning; otherwise the bond is added. -/
def conect_add_bond (frame : PFrame) (st : RState) (i j : Nat) :
    Except String (PFrame × RState) :=
  if frame.atoms.length ≤ i ∨ frame.atoms.length ≤ j then
    .ok (frame, warn st "ignoring CONECT with atomic indexes bigger than frame size")
  else (frame_add_bond frame i j).map (fun f => (f, st))

/-- `PDBFormat::read_CONECT`: up to four bonds from the first serial. -/
def read_CONECT (line : String) (frame : PFrame) (st : RState) :
    Except String (PFrame × RState) :=
  let line_length := (trim line).length
  do
    let i ← conect_read_index line st 6
    if line_length > 11 then do
      let j ← conect_read_index line st 11
      let (frame, st) ← conect_add_bond frame st i j
      if line_length > 16 then do
        let j ← conect_read_index line st 16
        let (frame, st) ← conect_add_bond frame st i j
        if line_length > 21 then do
          let j ← conect_read_index line st 21
          let (frame, st) ← conect_add_bond frame st i j
          if line_length > 26 then do
            let j ← conect_read_index line st 26
            conect_add_bond frame st i j
          else .ok (frame, st)
        else .ok (frame, st)
      else .ok (frame, st)
    else .ok (frame, st)

/-- `PDBFormat::read_CRYST1`: six fixed-width doubles; a custom space group
is ignored with a warning. -/
def read_CRYST1 (line : String) (frame : PFrame) (st : RState) :
    Except String (PFrame × RState) :=
  if line.length < 54 then .error "CRYST1 record is too small"
  else
    match parse_rat (col line 6 9), parse_rat (col line 15 9), parse_rat (col line 24 9),
          parse_rat (col line 33 7), parse_rat (col line 40 7), parse_rat (col line 47 7) with
    | some a, some b, some c, some al, some be, some ga =>
      let st :=
        if 55 ≤ line.length then
          let space_group := trim (col line 55 10)
          if space_group ≠ "P 1" ∧ space_group ≠ "P1" then
            warn st "ignoring custom space group, using P1 instead"
          else st
        else st
      .ok ({ frame with cell := some (a, b, c, al, be, ga) }, st)
    | _, _, _, _, _, _ => .error "could not read CRYST1 record"

/-- `PDBFormat::chain_ended`: move the pending residues (in `std::map` key
order) into the frame and clear the map. -/
def chain_ended (frame : PFrame) (st : RState) : PFrame × RState :=
  ({ frame with residues := frame.residues ++ st.residues_.map (·.2) },
   { st with residues_ := [] })

/-- The TER record handler inside `read_next`: a decodable non-zero serial
extends the offset table; a non-numeric serial is a warning; then the
current chain is flushed. -/
def handle_TER (line : String) (frame : PFrame) (st : RState) : PFrame × RState :=
  let st :=
    if 12 ≤ line.length then
      match decode_hybrid36 5 (col line 6 5) with
      | some ter_serial =>
        if ter_serial ≠ 0 then
          { st with atom_offsets_ := st.atom_offsets_ ++ [ter_serial.toNat] }
        else st
      | none => warn st "TER record not numeric"
    else st
  chain_ended frame st

/-- The standard-residue connectivity table (`PDBConnectivity`, outside
`src/`) is abstracted as a lookup from residue names to bonded atom-name
pairs; the traversal below is the one of
`PDBFormat::link_standard_residue_bonds`. -/
abbrev PDBTable := String → Option (List (String × String))

/-- `atom_name_to_index` lookup: the map is filled in residue order, later
atoms overwriting earlier ones with the same name, so a lookup returns the
last member atom bearing the name. -/
def name_lookup (frame : PFrame) (residue : PResidue) (nm : String) : Option Nat :=
  (residue.atoms.filter (fun a => (frame.atoms.get? a).map PAtom.name = some nm)).getLast?

/-- Missing table atoms whose names do not look like hydrogens, terminal
oxygens, phosphates or OP oxygens are reported. -/
def warn_missing_atom (nm : String) : Bool :=
  let c0 := nm.toList.getD 0 ' '
  c0 ≠ 'H' && nm ≠ "OXT" && c0 ≠ 'P' && nm.take 2 ≠ "OP"

/-- The local state of the `link_standard_residue_bonds` loop. -/
structure LinkSt where
  link_previous_peptide : Bool
  link_previous_nucleic : Bool
  previous_residue_id : Int
  previous_carboxylic_id : Nat

/-- `PDBFormat::link_standard_residue_bonds`.  Every frame residue found in
the connectivity table gets its intra-residue bonds, and consecutive
residues (by id) are linked through the peptide (`C`–`N`) and nucleic
(`O3'`–`P` handshake) machinery.  Residues built by this reader always
carry an id, so the `!residue.id()` warning branch cannot trigger. -/
def link_standard_residue_bonds (table : PDBTable) (frame : PFrame) (st : RState) :
    Except String (PFrame × RState) := do
  let init : LinkSt := ⟨false, false, 0, 0⟩
  let out ← frame.residues.foldlM
    (fun (acc : LinkSt × PFrame × RState) residue => do
      let (ls, frame, st) := acc
      match table residue.name with
      | none => pure (ls, frame, st)
      | some residue_table => do
        let amide_nitrogen := name_lookup frame residue "N"
        let amide_carbon := name_lookup frame residue "C"
        let resid := residue.resid
        let peptide ←
          match amide_nitrogen with
          | some n =>
            if ls.link_previous_peptide ∧ resid = ls.previous_residue_id + 1 then do
              let f ← frame_add_bond frame ls.previous_carboxylic_id n
              pure ({ ls with link_previous_peptide := false }, f)
            else pure (ls, frame)
          | none => pure (ls, frame)
        let ls := peptide.1
        let frame := peptide.2
        let ls :=
          match amide_carbon with
          | some c => { ls with link_previous_peptide := true,
                                previous_carboxylic_id := c,
                                previous_residue_id := resid }
          | none => ls
        let three_prime_oxygen := name_lookup frame residue "O3\x27"
        let five_prime_phospho := name_lookup frame residue "P"
        let nucleic ←
          if ls.link_previous_nucleic ∧ five_prime_phospho.isSome ∧
              resid = ls.previous_residue_id + 1 then do
            let f ← frame_add_bond frame ls.previous_carboxylic_id
              (three_prime_oxygen.getD 0)
            pure ({ ls with link_previous_nucleic := false }, f)
          else pure (ls, frame)
        let ls := nucleic.1
        let frame := nucleic.2
        let ls :=
          match three_prime_oxygen with
          | some o => { ls with link_previous_nucleic := true,
                                previous_carboxylic_id := o,
                                previous_residue_id := resid }
          | none => ls
        let frame ←
          match name_lookup frame residue "HO5\x27" with
          | some h => frame_add_bond frame h ((name_lookup frame residue "O5\x27").getD 0)
          | none => pure frame
        let links ← residue_table.foldlM
          (fun (acc2 : PFrame × RState) link => do
            let (frame, st) := acc2
            match name_lookup frame residue link.1, name_lookup frame residue link.2 with
            | none, _ =>
              if warn_missing_atom link.1 then
                pure (frame, warn st "found unexpected, non-standard atom")
              else pure (frame, st)
            | some _, none =>
              if warn_missing_atom link.2 then
                pure (frame, warn st "found unexpected, non-standard atom")
              else pure (frame, st)
            | some i, some j => (frame_add_bond frame i j).map (fun f => (f, st)))
          (frame, st)
        pure (ls, links.1, links.2))
    (init, frame, st)
  pure (out.2.1, out.2.2)

/-- One non-boundary record inside the `read_next` loop (the `END` and
`ENDMDL` cases are handled by the loop itself). -/
def handle_record (line : String) (at_eof : Bool) (r : Record)
    (frame : PFrame) (st : RState) : Except String (PFrame × RState) :=
  match r with
  | .CRYST1 => read_CRYST1 line frame st
  | .ATOM => read_ATOM line false frame st
  | .HETATM => read_ATOM line true frame st
  | .CONECT => read_CONECT line frame st
  | .MODEL => .ok (frame, { st with models_ := st.models_ + 1 })
  | .TER => .ok (handle_TER line frame st)
  | .UNKNOWN_ => .ok (frame, if at_eof then st else warn st "ignoring unknown record")
  | _ => .ok (frame, st)

/-- The `while (!got_end && !file_.eof())` loop of `read_next`, returning
the frame and state together with the `got_end` flag and the number of
lines consumed.  The `ENDMDL`-followed-by-`END` quirk matches
`read_next_consumed`. -/
def read_next_loop (table : PDBTable) :
    List String → PFrame → RState → Except String (PFrame × RState × Bool × Nat)
  | [], frame, st => .ok (frame, st, false, 0)
  | line :: rest, frame, st =>
    let r := get_record line
    if r = .END then .ok (frame, st, true, 1)
    else if r = .ENDMDL ∧ rest.head?.map get_record ≠ some .END then
      .ok (frame, st, true, 1)
    else
      match handle_record line rest.isEmpty r frame st with
      | .error e => .error e
      | .ok (f2, st2) =>
        match read_next_loop table rest f2 st2 with
        | .error e => .error e
        | .ok (f3, st3, g, k) => .ok (f3, st3, g, k + 1)

/-- `PDBFormat::read_next`: clear the per-frame state, run the record loop,
warn when no `END`/`ENDMDL` closed the frame, then flush the pending
residues and add the standard residue bonds. -/
def read_next (table : PDBTable) (lines : List String) (pos : Nat) (st : RState) :
    Except String (PFrame × RState × Nat) := do
  let st0 := { st with residues_ := [], atom_offsets_ := [] }
  let (frame, st1, got_end, k) ← read_next_loop table (lines.drop pos) empty_frame st0
  let st2 := if got_end then st1 else warn st1 "missing END record in file"
  let flushed := chain_ended frame st2
  let linked ← link_standard_residue_bonds table flushed.1 flushed.2
  pure (linked.1, linked.2, pos + k)

/-- The fresh reader state. -/
def init_rstate : RState := ⟨[], [], 0, []⟩

/-! ## Concrete files and observation helpers -/

def atom_line_1 : String := "ATOM      1  N   ALA A   1      11.104   6.134  -6.504"
def atom_line_2 : String := "ATOM      2  CA  ALA A   1       1.000   2.000   3.000"
def atom_line_bad_serial : String := "ATOM      0  N   ALA A   1      11.104   6.134  -6.504"

/-- A table with no known residues. -/
def empty_table : PDBTable := fun _ => none

/-- A one-entry connectivity table: alanine with a single `N`–`CA` link. -/
def ala_table : PDBTable := fun n => if n = "ALA" then some [("N", "CA")] else none

/-- A PDB file with two atoms and no `END`/`ENDMDL` record at all. -/
def pdb_no_end_file : List String := [atom_line_1, atom_line_2]

/-- A PDB file whose first model is closed by an `ENDMDL` record that is
immediately followed by another `ENDMDL` record. -/
def pdb_two_endmdl_file : List String :=
  [atom_line_1, "ENDMDL", "ENDMDL", atom_line_2, "END"]

def read_next_atoms (r : Except String (PFrame × RState × Nat)) : Option Nat :=
  r.toOption.map (fun t => t.1.atoms.length)

def read_next_bonds (r : Except String (PFrame × RState × Nat)) : Option (List (Nat × Nat)) :=
  r.toOption.map (fun t => t.1.bonds)

def read_next_residue_count (r : Except String (PFrame × RState × Nat)) : Option Nat :=
  r.toOption.map (fun t => t.1.residues.length)

def read_next_offsets (r : Except String (PFrame × RState × Nat)) : Option (List Nat) :=
  r.toOption.map (fun t => t.2.1.atom_offsets_)

def read_next_warnings (r : Except String (PFrame × RState × Nat)) : Option (List String) :=
  r.toOption.map (fun t => t.2.1.warnings)

/-! ## String take lemmas -/

lemma take_take_str (s : String) (m n : Nat) : (s.take m).take n = s.take (min n m) := by
  apply String.ext
  simp [List.take_take]

lemma end_prefix_record (l : String) (h : l.take 3 = "END") :
    get_record l = .END ∨ get_record l = .ENDMDL := by
  by_cases h6 : l.take 6 = "ENDMDL"
  · right; simp [get_record, h6]
  · left
    have h3 : (l.take 6).take 3 = "END" := by
      rw [take_take_str]; simpa using h
    simp [get_record, h6, h3]

lemma forward_consumed_of_no_end (lines : List String)
    (h : ∀ l ∈ lines, l.take 3 ≠ "END") : forward_consumed lines = none := by
  induction lines with
  | nil => rfl
  | cons line rest ih =>
    have h1 : line.take 3 ≠ "END" := h line (by simp)
    have h6 : line.take 6 ≠ "ENDMDL" := by
      intro hh
      apply h1
      have : line.take 3 = (line.take 6).take 3 := by
        rw [take_take_str]; norm_num
      rw [this, hh]
      decide
    simp [forward_consumed, h6, h1, ih (fun l hl => h l (by simp [hl]))]

/-- **C2.** The frame index built from `PDBFormat::forward` is *not*
lossless with respect to sequential reads: `forward` skips an `ENDMDL` line
whenever the next line merely *starts* with the three characters `END`
(which is also true of another `ENDMDL`), while `read_next` only waits when
the next line is exactly an `END` record.  On a file whose first model is
closed by `ENDMDL` immediately followed by a second `ENDMDL`, `nsteps` is
`2` but the second recorded offset is `3` while the second sequential read
starts at line `2`: `read_step(1)` returns a frame holding one ATOM record
whereas the first sequential `read()` returned the whole first model and
the second returned an empty frame. -/
theorem forward_not_lossless_on_double_endmdl :
    nsteps pdb_two_endmdl_file = 2 ∧
    trajectory_index pdb_two_endmdl_file = [0, 3] ∧
    seq_read_pos pdb_two_endmdl_file 1 = 2 ∧
    read_step_lines pdb_two_endmdl_file 1 ≠ seq_read_lines pdb_two_endmdl_file 1 ∧
    (read_step_lines pdb_two_endmdl_file 1).countP
      (fun l => decide (get_record l = Record.ATOM)) = 1 ∧
    (seq_read_lines pdb_two_endmdl_file 1).countP
      (fun l => decide (get_record l = Record.ATOM)) = 0 := by
  decide

/-! ## C8: recovery from a bad first atom serial -/

lemma atom_serial_offsets_bad (line : String) (st : RState)
    (hoff : st.atom_offsets_ = [])
    (hbad : decode_hybrid36 5 (col line 6 5) = none ∨
      ∃ v, decode_hybrid36 5 (col line 6 5) = some v ∧ v ≤ 0) :
    (atom_serial_offsets line st).atom_offsets_ = [0] ∧
    ((atom_serial_offsets line st).warnings =
        st.warnings ++ ["atom serial is too small, assuming id is 1"] ∨
      (atom_serial_offsets line st).warnings =
        st.warnings ++ ["not a valid atom id, assuming 1"]) := by
  unfold atom_serial_offsets
  rw [hoff]
  simp only [List.isEmpty_nil, if_true]
  rcases hbad with hnone | ⟨v, hv, hvle⟩
  · rw [hnone]
    exact ⟨rfl, Or.inr rfl⟩
  · rw [hv]
    simp only [if_pos hvle]
    exact ⟨rfl, Or.inl rfl⟩

lemma read_ATOM_residue_offsets (line : String) (is_hetatm : Bool) (atom_id : Nat)
    (st : RState) :
    (read_ATOM_residue line is_hetatm atom_id st).atom_offsets_ = st.atom_offsets_ ∧
    (read_ATOM_residue line is_hetatm atom_id st).warnings = st.warnings := by
  unfold read_ATOM_residue
  split
  · dsimp only
    split
    · exact ⟨rfl, rfl⟩
    · exact ⟨rfl, rfl⟩
  · exact ⟨rfl, rfl⟩

/-- **C8.** When the serial field of the first ATOM/HETATM record either
fails to decode as hybrid-36 or decodes to a value `≤ 0`, `read_ATOM` does
not fail: it emits a warning, records an atom offset of `0` (assuming the
serial is `1`), and still appends the atom parsed from the rest of the
record; and a full `read_next` over such a file succeeds with the same
offset, warning, and atom. -/
theorem read_ATOM_bad_serial_recovers :
    (∀ (line : String) (is_hetatm : Bool) (frame : PFrame) (st : RState),
      54 ≤ line.length →
      st.atom_offsets_ = [] →
      (decode_hybrid36 5 (col line 6 5) = none ∨
        ∃ v, decode_hybrid36 5 (col line 6 5) = some v ∧ v ≤ 0) →
      (parse_rat (col line 30 8)).isSome →
      (parse_rat (col line 38 8)).isSome →
      (parse_rat (col line 46 8)).isSome →
      ∃ frame2 st2, read_ATOM line is_hetatm frame st = .ok (frame2, st2) ∧
        st2.atom_offsets_ = [0] ∧
        (st2.warnings = st.warnings ++ ["atom serial is too small, assuming id is 1"] ∨
         st2.warnings = st.warnings ++ ["not a valid atom id, assuming 1"]) ∧
        (∃ a, frame2.atoms = frame.atoms ++ [a] ∧ a.name = trim (col line 12 4))) ∧
    read_next_offsets (read_next empty_table [atom_line_bad_serial, "END"] 0 init_rstate) =
      some [0] ∧
    read_next_warnings (read_next empty_table [atom_line_bad_serial, "END"] 0 init_rstate) =
      some ["atom serial is too small, assuming id is 1"] ∧
    read_next_atoms (read_next empty_table [atom_line_bad_serial, "END"] 0 init_rstate) =
      some 1 := by
  refine ⟨?_, by decide, by decide, by decide⟩
  intro line is_hetatm frame st hlen hoff hbad hx hy hz
  obtain ⟨x, hx2⟩ := Option.isSome_iff_exists.mp hx
  obtain ⟨y, hy2⟩ := Option.isSome_iff_exists.mp hy
  obtain ⟨z, hz2⟩ := Option.isSome_iff_exists.mp hz
  have hlen2 : ¬ line.length < 54 := by omega
  obtain ⟨hso1, hso3⟩ := atom_serial_offsets_bad line st hoff hbad
  obtain ⟨hro, hrw⟩ := read_ATOM_residue_offsets line is_hetatm
    (({ frame with atoms := frame.atoms ++ [read_ATOM_atom line x y z] } : PFrame).atoms.length - 1)
    (atom_serial_offsets line st)
  unfold read_ATOM
  rw [if_neg hlen2, hx2, hy2, hz2]
  refine ⟨_, _, rfl, ?_, ?_, ⟨_, rfl, rfl⟩⟩
  · rw [hro, hso1]
  · rw [hrw]
    exact hso3

/-- Witness for C8: the concrete record with serial `0` is accepted with a
warning, offset `0`, and the atom `N` appended. -/
theorem read_ATOM_bad_serial_recovers_witness :
    ∃ frame2 st2,
      read_ATOM atom_line_bad_serial false empty_frame init_rstate = .ok (frame2, st2) ∧
      st2.atom_offsets_ = [0] ∧
      (st2.warnings = init_rstate.warnings ++ ["atom serial is too small, assuming id is 1"] ∨
       st2.warnings = init_rstate.warnings ++ ["not a valid atom id, assuming 1"]) ∧
      (∃ a, frame2.atoms = empty_frame.atoms ++ [a] ∧
        a.name = trim (col atom_line_bad_serial 12 4)) :=
  read_ATOM_bad_serial_recovers.1 atom_line_bad_serial false empty_frame init_rstate
    (by decide) rfl (Or.inr ⟨0, by decide, by decide⟩) (by decide) (by decide) (by decide)

/-! ## C9: files without any END record -/

/-- **C9.** `PDBFormat::forward` called at position `0` on a non-empty file
containing no `END` or `ENDMDL` record returns `some 0` (the whole file is
one frame) with the position at end of file; from a non-zero position with
no further `END`/`ENDMDL` record it returns `none`.  `read_next` on such a
file emits the "missing END record" warning but still registers the pending
residues and the standard residue bonds (here the `N`–`CA` link of the
alanine table) before returning. -/
theorem forward_no_end_single_frame :
    (∀ lines : List String, lines ≠ [] →
      (∀ l ∈ lines, get_record l ≠ .END ∧ get_record l ≠ .ENDMDL) →
      pdb_forward lines 0 = (some 0, lines.length)) ∧
    (∀ (lines : List String) (pos : Nat), 0 < pos →
      (∀ l ∈ lines.drop pos, get_record l ≠ .END ∧ get_record l ≠ .ENDMDL) →
      (pdb_forward lines pos).1 = none) ∧
    read_next_warnings (read_next ala_table pdb_no_end_file 0 init_rstate) =
      some ["missing END record in file"] ∧
    read_next_residue_count (read_next ala_table pdb_no_end_file 0 init_rstate) = some 1 ∧
    read_next_bonds (read_next ala_table pdb_no_end_file 0 init_rstate) = some [(0, 1)] := by
  refine ⟨?_, ?_, by decide, by decide, by decide⟩
  · intro lines _ h
    have hnoend : ∀ l ∈ lines, l.take 3 ≠ "END" := by
      intro l hl h3
      rcases end_prefix_record l h3 with hc | hc
      · exact (h l hl).1 hc
      · exact (h l hl).2 hc
    simp [pdb_forward, forward_consumed_of_no_end lines hnoend]
  · intro lines pos hpos h
    have hnoend : ∀ l ∈ lines.drop pos, l.take 3 ≠ "END" := by
      intro l hl h3
      rcases end_prefix_record l h3 with hc | hc
      · exact (h l hl).1 hc
      · exact (h l hl).2 hc
    simp [pdb_forward, forward_consumed_of_no_end _ hnoend, Nat.pos_iff_ne_zero.mp hpos]

/-- Witness for C9: a one-line file with no `END` is a single frame from
position `0`, and yields `none` from position `1` of a file whose tail has
no `END`. -/
theorem forward_no_end_single_frame_witness :
    pdb_forward ["ATOM  x"] 0 = (some 0, 1) ∧
    (pdb_forward ["END", "ATOM  x"] 1).1 = none := by
  constructor
  · have h := forward_no_end_single_frame.1 ["ATOM  x"] (by decide) (by decide)
    simpa using h
  · have h := forward_no_end_single_frame.2.1 ["END", "ATOM  x"] 1 (by decide) (by decide)
    simpa using h

/-! ## PDB writer: hybrid-36 encoding and `to_pdb_index` -/

/-- Largest value encodable at width 4: `10^4 + 52·36^3 - 1`. -/
def MAX_HYBRID36_W4_NUMBER : Int := 2436111

/-- Largest value encodable at width 5: `10^5 + 52·36^4 - 1`. -/
def MAX_HYBRID36_W5_NUMBER : Int := 87440031

def digit36_char_upper (d : Nat) : Char :=
  if d < 10 then Char.ofNat ('0'.toNat + d) else Char.ofNat ('A'.toNat + d - 10)

def digit36_char_lower (d : Nat) : Char :=
  if d < 10 then Char.ofNat ('0'.toNat + d) else Char.ofNat ('a'.toNat + d - 10)

/-- `width` base-36 digits of `n`, most significant first. -/
def to_base36 (upper : Bool) : Nat → Nat → List Char
  | 0, _ => []
  | w + 1, n =>
    to_base36 upper w (n / 36) ++
      [if upper then digit36_char_upper (n % 36) else digit36_char_lower (n % 36)]

def pad_left (s : String) (w : Nat) : String :=
  String.mk (List.replicate (w - s.length) ' ') ++ s

/-- Modelled from the spec: hybrid-36 encoding (§6, `encode_hydrid36` — the
source spelling — is not under `src/`).  Values `0 … 10^w−1` are
right-justified decimal; the next `26·36^(w−1)` values use an upper-case
letter in the leading column; the next `26·36^(w−1)` a lower-case one;
anything beyond (and any negative value too wide for the column) encodes as
all asterisks (§9, writer overflow). -/
def encode_hydrid36 (width : Nat) (value : Int) : String :=
  if value < 0 then
    let s := toString value
    if s.length ≤ width then pad_left s width
    else String.mk (List.replicate width '*')
  else
    let n := value.toNat
    if n < 10 ^ width then pad_left (toString n) width
    else if n < 10 ^ width + 26 * 36 ^ (width - 1) then
      String.mk (to_base36 true width (n - 10 ^ width + 10 * 36 ^ (width - 1)))
    else if n < 10 ^ width + 52 * 36 ^ (width - 1) then
      String.mk (to_base36 false width (n - 10 ^ width - 26 * 36 ^ (width - 1) + 10 * 36 ^ (width - 1)))
    else String.mk (List.replicate width '*')

/-- `to_pdb_index` from PDB.cpp: encode `value + 1`, and report a warning
exactly when the encoding starts with `*` *and* the value equals one of the
two `MAX_HYBRID36` constants.  The second component is the warning flag. -/
def to_pdb_index (value : Int) (width : Nat) : String × Bool :=
  let encoded := encode_hydrid36 width (value + 1)
  (encoded,
   encoded.toList.getD 0 ' ' == '*' &&
     (value == MAX_HYBRID36_W4_NUMBER || value == MAX_HYBRID36_W5_NUMBER))

/-! ## PDB writer: TER records and CONECT rows -/

/-- A residue as seen by the writer: the properties `write_next` and
`get_residue_strings` consult. -/
structure WResidue where
  name : String
  id : Option Int
  chainid : Option String
  inscode : Option String
  is_standard_pdb : Bool
  composition_type : String
deriving DecidableEq, Repr

/-- `ResidueInformation` from PDB.cpp with its defaults. -/
structure ResidueInformation where
  atom_hetatm : String := "HETATM"
  resname : String := "XXX"
  resid : String := "  -1"
  chainid : String := "X"
  inscode : String := " "
  comp_type : String := ""
deriving DecidableEq, Repr

/-- `get_residue_strings`: build the fixed-width strings for one atom's
residue.  An atom without residue consumes the running `max_resid` counter
(returned incremented); overlong names, chain ids and insertion codes are
truncated (with a warning in the source). -/
def get_residue_strings (residue_opt : Option WResidue) (max_resid : Int) :
    ResidueInformation × Int :=
  match residue_opt with
  | none =>
    ({ resid := (to_pdb_index max_resid 4).1 }, max_resid + 1)
  | some residue =>
    let atom_hetatm := if residue.is_standard_pdb then "ATOM  " else "HETATM"
    let resname := if residue.name.length > 3 then residue.name.take 3 else residue.name
    let resid :=
      match residue.id with
      | some i => (to_pdb_index (i - 1) 4).1
      | none => "  -1"
    let chainid :=
      match residue.chainid with
      | some c => if c.length > 1 then String.mk [c.toList.getD 0 ' '] else c
      | none => "X"
    let inscode :=
      match residue.inscode with
      | some c => if c.length > 1 then String.mk [c.toList.getD 0 ' '] else c
      | none => " "
    ({ atom_hetatm := atom_hetatm, resname := resname, resid := resid,
       chainid := chainid, inscode := inscode,
       comp_type := residue.composition_type }, max_resid)

/-- `needs_ter_record` from PDB.cpp: no TER after residues with an empty,
"other"/"OTHER" or "non-polymer"/"NON-POLYMER" composition type. -/
def needs_ter_record (residue : ResidueInformation) : Bool :=
  if residue.comp_type = "" ∨
      residue.comp_type = "other" ∨ residue.comp_type = "OTHER" ∨
      residue.comp_type = "non-polymer" ∨ residue.comp_type = "NON-POLYMER" then
    false
  else true

/-- `adjust_for_ter_residues` from PDB.cpp: `std::lower_bound(ters, v+1)`
adds the number of recorded TER serial numbers not exceeding `v`. -/
def adjust_for_ter_residues (v : Nat) (ters : List Nat) : Int :=
  (v : Int) + (lower_bound_count ters ((v : Int) + 1) : Int)

/-- The frame contents consulted by `write_next`: the residue (if any) of
each atom in order, and the bond set. -/
structure WFrame where
  atom_residues : List (Option WResidue)
  bonds : List (Nat × Nat)
deriving DecidableEq, Repr

/-- `max_resid` initialisation in `write_next`: the largest positive
residue id of the frame. -/
def writer_max_resid (frame : WFrame) : Int :=
  frame.atom_residues.foldl
    (fun m r? =>
      match r? with
      | some r => match r.id with
        | some i => if i > m then i else m
        | none => m
      | none => m) 0

/-- One emitted record of the atom loop: a TER record or an ATOM/HETATM
record.  Serials are recorded as the 0-based value passed to
`to_pdb_index` (the printed serial is its hybrid-36 encoding of value+1). -/
inductive PdbRow where
  | ter (serial : Nat)
  | atom (index : Nat) (serial : Nat) (record : String)
deriving DecidableEq, Repr

/-- The writer loop state. -/
structure WState where
  ter_count : Nat
  last_residue : Option ResidueInformation
  ter_serial_numbers : List Nat
  rows : List PdbRow
  is_atom_record : List Bool
  max_resid : Int
deriving Repr

/-- The body of the atom loop in `write_next` for atom `i`: TER insertion
when the chain id changed after a residue that needs one, then the
ATOM/HETATM row with serial `i + ter_count`. -/
def write_atom_row (st : WState) (i : Nat) (residue : Option WResidue) : WState :=
  let gr := get_residue_strings residue st.max_resid
  let r := gr.1
  let st := { st with max_resid := gr.2,
                      is_atom_record := st.is_atom_record ++ [r.atom_hetatm == "ATOM  "] }
  let st :=
    match st.last_residue with
    | some lr =>
      if lr.chainid ≠ r.chainid ∧ needs_ter_record lr then
        { st with rows := st.rows ++ [PdbRow.ter (i + st.ter_count)],
                  ter_serial_numbers := st.ter_serial_numbers ++ [i + st.ter_count],
                  ter_count := st.ter_count + 1 }
      else st
    | none => st
  let st := { st with rows := st.rows ++ [PdbRow.atom i (i + st.ter_count) r.atom_hetatm] }
  { st with last_residue := if residue.isSome then some r else none }

def write_rows_aux : List (Option WResidue) → Nat → WState → WState
  | [], _, st => st
  | r? :: rest, i, st => write_rows_aux rest (i + 1) (write_atom_row st i r?)

/-- The atom loop of `PDBFormat::write_next`. -/
def write_rows (frame : WFrame) : WState :=
  write_rows_aux frame.atom_residues 0
    ⟨0, none, [], [], [], writer_max_resid frame⟩

/-- The CONECT pass of `write_next`: bonds between two standard (`ATOM`)
records are skipped, bonds with an endpoint above `87440031` are dropped
with a warning, and every kept bond contributes its two endpoints to each
other's CONECT list with TER-adjusted serials. -/
def conect_entries (frame : WFrame) (st : WState) : List (Nat × Int) :=
  frame.bonds.foldl
    (fun acc b =>
      if st.is_atom_record.getD b.1 false ∧ st.is_atom_record.getD b.2 false then acc
      else if b.1 > 87440031 ∨ b.2 > 87440031 then acc
      else acc ++ [(b.1, adjust_for_ter_residues b.2 st.ter_serial_numbers),
                   (b.2, adjust_for_ter_residues b.1 st.ter_serial_numbers)])
    []

/-- The `(atom index, serial value)` pairs of the emitted ATOM rows. -/
def atom_serials (st : WState) : List (Nat × Nat) :=
  st.rows.filterMap
    (fun r => match r with | PdbRow.atom i s _ => some (i, s) | PdbRow.ter _ => none)

/-- The serial values of the emitted TER rows, in order. -/
def ter_rows (st : WState) : List Nat :=
  st.rows.filterMap
    (fun r => match r with | PdbRow.ter s => some s | PdbRow.atom _ _ _ => none)

/-! ## Writer characterization -/

/-- chainid string of the `ResidueInformation` built for an atom (it never
depends on the running `max_resid`). -/
def write_chainid (r? : Option WResidue) : String :=
  match r? with
  | none => "X"
  | some r =>
    match r.chainid with
    | some c => if c.length > 1 then String.mk [c.toList.getD 0 ' '] else c
    | none => "X"

/-- the ATOM/HETATM record choice for an atom. -/
def write_record (r? : Option WResidue) : String :=
  match r? with
  | none => "HETATM"
  | some r => if r.is_standard_pdb then "ATOM  " else "HETATM"

lemma grs_chainid (r? : Option WResidue) (m : Int) :
    (get_residue_strings r? m).1.chainid = write_chainid r? := by
  cases r? with
  | none => rfl
  | some r =>
    cases h : r.chainid <;> simp [get_residue_strings, write_chainid, h]

lemma grs_record (r? : Option WResidue) (m : Int) :
    (get_residue_strings r? m).1.atom_hetatm = write_record r? := by
  cases r? with
  | none => rfl
  | some r => simp [get_residue_strings, write_record]

lemma grs_indep (r : WResidue) (m : Int) :
    (get_residue_strings (some r) m).1 = (get_residue_strings (some r) 0).1 := rfl

/-- Whether the TER condition of `write_next` fires for the current atom,
given the previous atom's residue information. -/
def ter_fire (lr : Option ResidueInformation) (r? : Option WResidue) : Bool :=
  match lr with
  | some lrr => decide (lrr.chainid ≠ write_chainid r?) && needs_ter_record lrr
  | none => false

lemma write_atom_row_eq (st : WState) (i : Nat) (r? : Option WResidue) :
    write_atom_row st i r? =
      let fire := ter_fire st.last_residue r?
      { ter_count := st.ter_count + (if fire then 1 else 0),
        last_residue := if r?.isSome then some (get_residue_strings r? 0).1 else none,
        ter_serial_numbers :=
          st.ter_serial_numbers ++ (if fire then [i + st.ter_count] else []),
        rows := st.rows ++ (if fire then [PdbRow.ter (i + st.ter_count)] else []) ++
          [PdbRow.atom i (i + st.ter_count + (if fire then 1 else 0)) (write_record r?)],
        is_atom_record := st.is_atom_record ++ [write_record r? == "ATOM  "],
        max_resid := (get_residue_strings r? st.max_resid).2 } := by
  unfold write_atom_row ter_fire
  cases hlr : st.last_residue with
  | none =>
    cases r? with
    | none => simp [grs_record, write_record, grs_chainid]
    | some r => simp [grs_record, write_record, grs_chainid, grs_indep]
  | some lrr =>
    by_cases hc : lrr.chainid = write_chainid r? <;> by_cases ht : needs_ter_record lrr <;>
      cases r? <;>
      simp [grs_chainid, grs_record, grs_indep, write_record, hc, ht] <;> omega

/-- The TER decision sequence of the atom loop: one flag per atom row, fed
by the previous atom's residue information. -/
def ter_flags (lr : Option ResidueInformation) : List (Option WResidue) → List Bool
  | [] => []
  | r? :: rest =>
    ter_fire lr r? ::
      ter_flags (if r?.isSome then some (get_residue_strings r? 0).1 else none) rest

/-- Serial values of TER records: a flag firing at atom row `i` with `c`
TERs already emitted gets serial value `i + c`. -/
def ter_serial_spec : Nat → Nat → List Bool → List Nat
  | _, _, [] => []
  | i, c, b :: rest =>
    if b then (i + c) :: ter_serial_spec (i + 1) (c + 1) rest
    else ter_serial_spec (i + 1) c rest

/-- Serial values of ATOM rows: atom `i` is written with serial value
`i + c` where `c` counts the TER records emitted before it. -/
def atom_serial_spec : Nat → Nat → List Bool → List (Nat × Nat)
  | _, _, [] => []
  | i, c, b :: rest =>
    if b then (i, i + c + 1) :: atom_serial_spec (i + 1) (c + 1) rest
    else (i, i + c) :: atom_serial_spec (i + 1) c rest

lemma war_ter_serials (st : WState) (i : Nat) (r? : Option WResidue) :
    (write_atom_row st i r?).ter_serial_numbers =
      st.ter_serial_numbers ++
        (if ter_fire st.last_residue r? then [i + st.ter_count] else []) := by
  rw [write_atom_row_eq]

lemma war_ter_count (st : WState) (i : Nat) (r? : Option WResidue) :
    (write_atom_row st i r?).ter_count =
      st.ter_count + (if ter_fire st.last_residue r? then 1 else 0) := by
  rw [write_atom_row_eq]

lemma war_last (st : WState) (i : Nat) (r? : Option WResidue) :
    (write_atom_row st i r?).last_residue =
      (if r?.isSome then some (get_residue_strings r? 0).1 else none) := by
  rw [write_atom_row_eq]

lemma war_rows (st : WState) (i : Nat) (r? : Option WResidue) :
    (write_atom_row st i r?).rows =
      st.rows ++ (if ter_fire st.last_residue r? then [PdbRow.ter (i + st.ter_count)] else []) ++
        [PdbRow.atom i (i + st.ter_count + (if ter_fire st.last_residue r? then 1 else 0))
          (write_record r?)] := by
  rw [write_atom_row_eq]

lemma war_is_atom (st : WState) (i : Nat) (r? : Option WResidue) :
    (write_atom_row st i r?).is_atom_record =
      st.is_atom_record ++ [write_record r? == "ATOM  "] := by
  rw [write_atom_row_eq]

lemma write_rows_aux_spec (l : List (Option WResidue)) (i : Nat) (st : WState) :
    (write_rows_aux l i st).ter_serial_numbers =
      st.ter_serial_numbers ++ ter_serial_spec i st.ter_count (ter_flags st.last_residue l) ∧
    atom_serials (write_rows_aux l i st) =
      atom_serials st ++ atom_serial_spec i st.ter_count (ter_flags st.last_residue l) ∧
    ter_rows (write_rows_aux l i st) =
      ter_rows st ++ ter_serial_spec i st.ter_count (ter_flags st.last_residue l) ∧
    (write_rows_aux l i st).is_atom_record =
      st.is_atom_record ++ l.map (fun r? => write_record r? == "ATOM  ") := by
  induction l generalizing i st with
  | nil => simp [write_rows_aux, ter_flags, ter_serial_spec, atom_serial_spec]
  | cons r? rest ih =>
    rw [write_rows_aux]
    obtain ⟨ih1, ih2, ih3, ih4⟩ := ih (i + 1) (write_atom_row st i r?)
    rw [ter_flags]
    refine ⟨?_, ?_, ?_, ?_⟩
    · rw [ih1, war_ter_serials, war_ter_count, war_last]
      cases hfire : ter_fire st.last_residue r? <;>
        simp [ter_serial_spec]
    · rw [ih2, war_ter_count, war_last]
      have hatom : atom_serials (write_atom_row st i r?) =
          atom_serials st ++
            [(i, i + st.ter_count + (if ter_fire st.last_residue r? then 1 else 0))] := by
        unfold atom_serials
        rw [war_rows]
        cases hfire : ter_fire st.last_residue r? <;> simp [List.filterMap_append]
      rw [hatom]
      cases hfire : ter_fire st.last_residue r? <;>
        simp [atom_serial_spec]
    · rw [ih3, war_ter_count, war_last]
      have hter : ter_rows (write_atom_row st i r?) =
          ter_rows st ++ (if ter_fire st.last_residue r? then [i + st.ter_count] else []) := by
        unfold ter_rows
        rw [war_rows]
        cases hfire : ter_fire st.last_residue r? <;> simp [List.filterMap_append]
      rw [hter]
      cases hfire : ter_fire st.last_residue r? <;>
        simp [ter_serial_spec]
    · rw [ih4, war_is_atom]
      simp

/-- The atom loop characterization at the top level. -/
lemma write_rows_spec (frame : WFrame) :
    (write_rows frame).ter_serial_numbers =
      ter_serial_spec 0 0 (ter_flags none frame.atom_residues) ∧
    atom_serials (write_rows frame) =
      atom_serial_spec 0 0 (ter_flags none frame.atom_residues) ∧
    ter_rows (write_rows frame) =
      ter_serial_spec 0 0 (ter_flags none frame.atom_residues) ∧
    (write_rows frame).is_atom_record =
      frame.atom_residues.map (fun r? => write_record r? == "ATOM  ") := by
  have h := write_rows_aux_spec frame.atom_residues 0
    ⟨0, none, [], [], [], writer_max_resid frame⟩
  simpa [write_rows, atom_serials, ter_rows] using h

lemma adjust_eq_countP (v : Nat) (ters : List Nat) :
    adjust_for_ter_residues v ters =
      (v : Int) + (ters.countP (fun t => decide (t ≤ v)) : Int) := by
  unfold adjust_for_ter_residues lower_bound_count
  have hpq : ∀ t ∈ ters, (decide ((t : Int) < (v : Int) + 1)) = decide (t ≤ v) := by
    intro t _
    simp only [decide_eq_decide]
    omega
  rw [List.filter_congr hpq, ← List.countP_eq_length_filter]

/-- Whether a bond survives the CONECT skip tests. -/
def conect_keep (st : WState) (b : Nat × Nat) : Bool :=
  !(st.is_atom_record.getD b.1 false && st.is_atom_record.getD b.2 false) &&
  !(decide (b.1 > 87440031) || decide (b.2 > 87440031))

lemma conect_keep_false_of_atoms (st : WState) (b : Nat × Nat)
    (h1 : st.is_atom_record.getD b.1 false = true)
    (h2 : st.is_atom_record.getD b.2 false = true) :
    conect_keep st b = false := by
  unfold conect_keep
  rw [h1, h2]
  rfl

lemma conect_keep_false_of_large (st : WState) (b : Nat × Nat)
    (h : b.1 > 87440031 ∨ b.2 > 87440031) :
    conect_keep st b = false := by
  unfold conect_keep
  rcases h with h | h <;> simp [h]

lemma conect_keep_true (st : WState) (b : Nat × Nat)
    (h1 : ¬(st.is_atom_record.getD b.1 false = true ∧ st.is_atom_record.getD b.2 false = true))
    (h2 : ¬(b.1 > 87440031 ∨ b.2 > 87440031)) :
    conect_keep st b = true := by
  unfold conect_keep
  push_neg at h2
  rcases Decidable.not_and_iff_or_not.mp h1 with h | h <;>
    simp [Bool.eq_false_iff.mpr h, h2.1, h2.2] <;>
    simp [Bool.not_eq_true] at h <;> simp [h]

lemma conect_entries_eq (frame : WFrame) (st : WState) :
    conect_entries frame st =
      (frame.bonds.filter (conect_keep st)).flatMap
        (fun b => [(b.1, adjust_for_ter_residues b.2 st.ter_serial_numbers),
                   (b.2, adjust_for_ter_residues b.1 st.ter_serial_numbers)]) := by
  unfold conect_entries
  generalize frame.bonds = bonds
  suffices h : ∀ acc : List (Nat × Int),
      bonds.foldl
        (fun acc b =>
          if st.is_atom_record.getD b.1 false ∧ st.is_atom_record.getD b.2 false then acc
          else if b.1 > 87440031 ∨ b.2 > 87440031 then acc
          else acc ++ [(b.1, adjust_for_ter_residues b.2 st.ter_serial_numbers),
                       (b.2, adjust_for_ter_residues b.1 st.ter_serial_numbers)])
        acc =
      acc ++ (bonds.filter (conect_keep st)).flatMap
        (fun b => [(b.1, adjust_for_ter_residues b.2 st.ter_serial_numbers),
                   (b.2, adjust_for_ter_residues b.1 st.ter_serial_numbers)]) by
    simpa using h []
  induction bonds with
  | nil => simp
  | cons b rest ih =>
    intro acc
    rw [List.foldl_cons]
    by_cases h1 : st.is_atom_record.getD b.1 false ∧ st.is_atom_record.getD b.2 false
    · rw [if_pos h1, ih, List.filter_cons,
        if_neg (by simp [conect_keep_false_of_atoms st b h1.1 h1.2])]
    · rw [if_neg h1]
      by_cases h2 : b.1 > 87440031 ∨ b.2 > 87440031
      · rw [if_pos h2, ih, List.filter_cons,
          if_neg (by simp [conect_keep_false_of_large st b h2])]
      · rw [if_neg h2, ih, List.filter_cons, if_pos (by simp [conect_keep_true st b h1 h2])]
        simp

/-! ## C4: TER records and serial adjustment -/

lemma ter_flags_length (lr : Option ResidueInformation) (l : List (Option WResidue)) :
    (ter_flags lr l).length = l.length := by
  induction l generalizing lr with
  | nil => rfl
  | cons r? rest ih => simp [ter_flags, ih]

lemma atom_serial_spec_get (flags : List Bool) (i c j : Nat) (hj : j < flags.length) :
    (atom_serial_spec i c flags).get? j =
      some (i + j, i + j + c + (flags.take (j + 1)).countP id) := by
  induction flags generalizing i c j with
  | nil => simp at hj
  | cons b rest ih =>
    cases j with
    | zero =>
      cases b <;> simp [atom_serial_spec, List.countP_cons]
    | succ j =>
      have hj2 : j < rest.length := by simpa using hj
      cases b <;>
        simp only [atom_serial_spec, List.take_succ_cons, List.countP_cons, id_eq,
          Bool.false_eq_true, if_false, if_true, List.get?_cons_succ, ih _ _ _ hj2,
          Option.some.injEq, Prod.mk.injEq] <;>
        constructor <;> omega

lemma needs_ter_record_iff (r : ResidueInformation) :
    needs_ter_record r = true ↔
      (r.comp_type ≠ "" ∧ r.comp_type ≠ "other" ∧ r.comp_type ≠ "OTHER" ∧
       r.comp_type ≠ "non-polymer" ∧ r.comp_type ≠ "NON-POLYMER") := by
  unfold needs_ter_record
  split <;> simp_all <;> tauto

lemma ter_fire_iff (lr : Option ResidueInformation) (r? : Option WResidue) :
    ter_fire lr r? = true ↔
      ∃ lrr, lr = some lrr ∧ lrr.chainid ≠ write_chainid r? ∧
        lrr.comp_type ≠ "" ∧ lrr.comp_type ≠ "other" ∧ lrr.comp_type ≠ "OTHER" ∧
        lrr.comp_type ≠ "non-polymer" ∧ lrr.comp_type ≠ "NON-POLYMER" := by
  cases lr with
  | none => simp [ter_fire]
  | some lrr => simp [ter_fire, needs_ter_record_iff, and_assoc]

/-- A pair of consecutive standard residues whose composition type is the
upper-case string "OTHER" and whose chain ids differ. -/
def ter_case_prev : WResidue := ⟨"ALA", some 1, some "A", none, true, "OTHER"⟩
def ter_case_cur : WResidue := ⟨"GLY", some 2, some "B", none, true, "peptide"⟩
def ter_case_frame : WFrame := ⟨[some ter_case_prev, some ter_case_cur], []⟩

/-- Three residues on chains A, B, C so that TER records are written before
atoms 1 and 2, plus a bond from the standard atom 0 to the HETATM atom 2. -/
def ter_shift_res_a : WResidue := ⟨"ALA", some 1, some "A", none, true, "peptide"⟩
def ter_shift_res_b : WResidue := ⟨"GLY", some 2, some "B", none, true, "peptide"⟩
def ter_shift_res_c : WResidue := ⟨"LIG", some 3, some "C", none, false, "peptide"⟩
def ter_shift_frame : WFrame :=
  ⟨[some ter_shift_res_a, some ter_shift_res_b, some ter_shift_res_c], [(0, 2)]⟩

/-- **C4, counterexample.**  (a) With a previous residue whose composition
type is `"OTHER"` — which is neither empty, `"other"` nor `"non-polymer"` —
and a differing chain id, `write_next` emits *no* TER record, contradicting
the claimed "exactly when" condition (the code also excludes the upper-case
spellings).  (b) With TER records emitted before atoms 1 and 2, atom 2 is
written with serial value `4 = 2 + 2` (two TERs precede it), but the CONECT
entry referring to atom 2 carries serial value `3`: downstream CONECT
serials are *not* always shifted by the number of preceding TER records. -/
theorem write_next_ter_claim_counterexample :
    (write_chainid (some ter_case_prev) ≠ write_chainid (some ter_case_cur) ∧
     ter_case_prev.composition_type ≠ "" ∧
     ter_case_prev.composition_type ≠ "other" ∧
     ter_case_prev.composition_type ≠ "non-polymer") ∧
    ter_rows (write_rows ter_case_frame) = [] ∧
    ter_rows (write_rows ter_shift_frame) = [1, 3] ∧
    atom_serials (write_rows ter_shift_frame) = [(0, 0), (1, 2), (2, 4)] ∧
    conect_entries ter_shift_frame (write_rows ter_shift_frame) = [(0, 3), (2, 0)] ∧
    (3 : Int) ≠ (2 : Int) + 2 := by
  decide

/-- **C4, amended.**  In `PDBFormat::write_next`: a TER record is inserted
between two consecutive written atoms exactly when the previous atom has a
residue whose chainid differs from the current one and whose
`composition_type` is none of `""`, `"other"`, `"OTHER"`, `"non-polymer"`,
`"NON-POLYMER"`; each TER record consumes one serial number and TER serials
are recorded in order; the serial of the `j`-th atom is `j` plus the number
of TER records written before it; and each serial appearing in a CONECT row
for atom `v` is `v` plus the number of *recorded TER serial numbers* that
are `≤ v` (which can undercount the TER records preceding atom `v`). -/
theorem write_next_ter_and_serials :
    (∀ (lr : Option ResidueInformation) (r? : Option WResidue),
      ter_fire lr r? = true ↔
        ∃ lrr, lr = some lrr ∧ lrr.chainid ≠ write_chainid r? ∧
          lrr.comp_type ≠ "" ∧ lrr.comp_type ≠ "other" ∧ lrr.comp_type ≠ "OTHER" ∧
          lrr.comp_type ≠ "non-polymer" ∧ lrr.comp_type ≠ "NON-POLYMER") ∧
    (∀ frame : WFrame,
      ter_rows (write_rows frame) =
        ter_serial_spec 0 0 (ter_flags none frame.atom_residues) ∧
      (write_rows frame).ter_serial_numbers = ter_rows (write_rows frame)) ∧
    (∀ (frame : WFrame) (j : Nat), j < frame.atom_residues.length →
      (atom_serials (write_rows frame)).get? j =
        some (j, j + ((ter_flags none frame.atom_residues).take (j + 1)).countP id)) ∧
    (∀ (frame : WFrame),
      conect_entries frame (write_rows frame) =
        (frame.bonds.filter (conect_keep (write_rows frame))).flatMap
          (fun b =>
            [(b.1, (b.2 : Int) +
               ((write_rows frame).ter_serial_numbers.countP (fun t => decide (t ≤ b.2)) : Int)),
             (b.2, (b.1 : Int) +
               ((write_rows frame).ter_serial_numbers.countP (fun t => decide (t ≤ b.1)) : Int))])) := by
  refine ⟨ter_fire_iff, ?_, ?_, ?_⟩
  · intro frame
    obtain ⟨h1, _, h3, _⟩ := write_rows_spec frame
    exact ⟨h3, by rw [h1, h3]⟩
  · intro frame j hj
    obtain ⟨_, h2, _, _⟩ := write_rows_spec frame
    rw [h2]
    have := atom_serial_spec_get (ter_flags none frame.atom_residues) 0 0 j
      (by rw [ter_flags_length]; exact hj)
    simpa using this
  · intro frame
    simp only [conect_entries_eq, adjust_eq_countP]

/-- Witness for the amended C4: in the three-chain frame, atom 2 is written
with serial `2` plus the two TER records preceding it. -/
theorem write_next_ter_and_serials_witness :
    (atom_serials (write_rows ter_shift_frame)).get? 2 =
      some (2, 2 + ((ter_flags none ter_shift_frame.atom_residues).take 3).countP id) :=
  write_next_ter_and_serials.2.2.1 ter_shift_frame 2 (by decide)

/-! ## C5: CONECT rows are only written for HETATM bonds -/

lemma conect_keep_iff (st : WState) (b : Nat × Nat) :
    conect_keep st b = true ↔
      (¬(st.is_atom_record.getD b.1 false = true ∧ st.is_atom_record.getD b.2 false = true) ∧
       b.1 ≤ 87440031 ∧ b.2 ≤ 87440031) := by
  constructor
  · intro h
    refine ⟨?_, ?_, ?_⟩
    · intro ⟨h1, h2⟩
      rw [conect_keep_false_of_atoms st b h1 h2] at h
      exact absurd h (by simp)
    · by_contra hc
      rw [conect_keep_false_of_large st b (Or.inl (by omega))] at h
      exact absurd h (by simp)
    · by_contra hc
      rw [conect_keep_false_of_large st b (Or.inr (by omega))] at h
      exact absurd h (by simp)
  · intro ⟨h1, h2, h3⟩
    exact conect_keep_true st b h1 (by omega)

/-- **C5.** Every CONECT entry written by `write_next` originates from a
bond with at least one endpoint not written as an `ATOM  ` record; a frame
all of whose bonds join two `ATOM  ` records gets no CONECT entry at all;
and an atom is written as an `ATOM  ` record exactly when it belongs to a
residue whose `is_standard_pdb` property is true. -/
theorem conect_rows_only_for_hetatm_bonds :
    (∀ (frame : WFrame) (e : Nat × Int),
      e ∈ conect_entries frame (write_rows frame) →
      ∃ b ∈ frame.bonds,
        ¬((write_rows frame).is_atom_record.getD b.1 false = true ∧
          (write_rows frame).is_atom_record.getD b.2 false = true) ∧
        (e = (b.1, adjust_for_ter_residues b.2 (write_rows frame).ter_serial_numbers) ∨
         e = (b.2, adjust_for_ter_residues b.1 (write_rows frame).ter_serial_numbers))) ∧
    (∀ frame : WFrame,
      (∀ b ∈ frame.bonds, (write_rows frame).is_atom_record.getD b.1 false = true ∧
          (write_rows frame).is_atom_record.getD b.2 false = true) →
      conect_entries frame (write_rows frame) = []) ∧
    (∀ frame : WFrame,
      (write_rows frame).is_atom_record =
        frame.atom_residues.map
          (fun r? => match r? with | some r => r.is_standard_pdb | none => false)) := by
  refine ⟨?_, ?_, ?_⟩
  · intro frame e he
    rw [conect_entries_eq] at he
    rw [List.mem_flatMap] at he
    obtain ⟨b, hb, hme⟩ := he
    rw [List.mem_filter] at hb
    refine ⟨b, hb.1, ((conect_keep_iff _ b).mp hb.2).1, ?_⟩
    rw [List.mem_cons, List.mem_singleton] at hme
    exact hme
  · intro frame hall
    rw [conect_entries_eq]
    have h : frame.bonds.filter (conect_keep (write_rows frame)) = [] := by
      rw [List.filter_eq_nil_iff]
      intro b hb
      obtain ⟨h1, h2⟩ := hall b hb
      simp [conect_keep_false_of_atoms _ b h1 h2]
    rw [h]
    rfl
  · intro frame
    rw [(write_rows_spec frame).2.2.2]
    apply List.map_congr_left
    intro r? _
    cases r? with
    | none => rfl
    | some r => cases hs : r.is_standard_pdb <;> simp [write_record, hs]

/-- Witness for C5: the bond from standard atom 0 to HETATM atom 2 of the
three-chain frame accounts for the CONECT entry `(0, 3)`. -/
theorem conect_rows_only_for_hetatm_bonds_witness :
    ∃ b ∈ ter_shift_frame.bonds,
      ¬((write_rows ter_shift_frame).is_atom_record.getD b.1 false = true ∧
        (write_rows ter_shift_frame).is_atom_record.getD b.2 false = true) ∧
      (((0 : Nat), (3 : Int)) =
         (b.1, adjust_for_ter_residues b.2 (write_rows ter_shift_frame).ter_serial_numbers) ∨
       ((0 : Nat), (3 : Int)) =
         (b.2, adjust_for_ter_residues b.1 (write_rows ter_shift_frame).ter_serial_numbers)) :=
  conect_rows_only_for_hetatm_bonds.1 ter_shift_frame (0, 3) (by decide)

/-! ## C6: hybrid-36 overflow in the writer -/

/-- **C6, counterexample.** At width 5 the value `87440032` (one past
`MAX_HYBRID36_W5_NUMBER`) overflows: the encoding is `*****`, but *no*
warning is reported, because `to_pdb_index` only warns when the value is
exactly `MAX_HYBRID36_W4_NUMBER` or `MAX_HYBRID36_W5_NUMBER`. -/
theorem to_pdb_index_overflow_counterexample :
    (to_pdb_index 87440032 5).1 = "*****" ∧ (to_pdb_index 87440032 5).2 = false := by
  decide

lemma encode_hydrid36_overflow_w5 (v : Int) (hv : 87440031 ≤ v) :
    encode_hydrid36 5 (v + 1) = "*****" := by
  unfold encode_hydrid36
  rw [if_neg (by omega)]
  have h5 : (10 : Nat) ^ 5 = 100000 := by norm_num
  have h36 : (36 : Nat) ^ (5 - 1) = 1679616 := by norm_num
  rw [if_neg (by rw [h5]; omega), if_neg (by rw [h5, h36]; omega),
    if_neg (by rw [h5, h36]; omega)]
  decide

lemma encode_hydrid36_overflow_w4 (v : Int) (hv : 2436111 ≤ v) :
    encode_hydrid36 4 (v + 1) = "****" := by
  unfold encode_hydrid36
  rw [if_neg (by omega)]
  have h4 : (10 : Nat) ^ 4 = 10000 := by norm_num
  have h36 : (36 : Nat) ^ (4 - 1) = 46656 := by norm_num
  rw [if_neg (by rw [h4]; omega), if_neg (by rw [h4, h36]; omega),
    if_neg (by rw [h4, h36]; omega)]
  decide

/-- **C6, amended.** For every overflowing atom serial (width 5) or residue
id (width 4) the encoding written is all asterisks and the write does not
fail (`to_pdb_index` always returns a string); the warning, however, is
reported only when the overflowing value is exactly `MAX_HYBRID36_W5_NUMBER`
(width 5), resp. one of the two `MAX_HYBRID36` constants (width 4). -/
theorem to_pdb_index_overflow (v : Int) :
    (87440031 ≤ v →
      (to_pdb_index v 5).1 = "*****" ∧
      ((to_pdb_index v 5).2 = true ↔ v = 87440031)) ∧
    (2436111 ≤ v →
      (to_pdb_index v 4).1 = "****" ∧
      ((to_pdb_index v 4).2 = true ↔ (v = 2436111 ∨ v = 87440031))) := by
  constructor
  · intro hv
    unfold to_pdb_index
    rw [encode_hydrid36_overflow_w5 v hv]
    refine ⟨rfl, ?_⟩
    simp only [MAX_HYBRID36_W4_NUMBER, MAX_HYBRID36_W5_NUMBER]
    have h : ¬(v = 2436111) := by omega
    simp [beq_iff_eq, h]
  · intro hv
    unfold to_pdb_index
    rw [encode_hydrid36_overflow_w4 v hv]
    refine ⟨rfl, ?_⟩
    simp only [MAX_HYBRID36_W4_NUMBER, MAX_HYBRID36_W5_NUMBER]
    simp [beq_iff_eq]

/-- Witness for the amended C6: the largest encodable width-5 value is the
single value that both overflows (as `value + 1`) and warns. -/
theorem to_pdb_index_overflow_witness :
    (to_pdb_index 87440031 5).1 = "*****" ∧
    ((to_pdb_index 87440031 5).2 = true ↔ (87440031 : Int) = 87440031) :=
  (to_pdb_index_overflow 87440031).1 (by norm_num)

/-! ## C3: topology angle derivation -/

/-- Modelled from the spec: the topology data model (§3; the Topology
implementation is not under `src/`, only its doc test is).  Atoms are an
ordered sequence; the bond set keeps the smaller index first and is
duplicate-free. -/
structure STopology where
  atoms : List String
  bonds : List (Nat × Nat)
deriving DecidableEq, Repr

/-- Modelled from the spec: `Topology::add_atom`. -/
def topology_add_atom (t : STopology) (name : String) : STopology :=
  { t with atoms := t.atoms ++ [name] }

/-- Modelled from the spec: `Topology::add_bond` — order-independent
representation with the smaller index first, no duplicates (§3). -/
def topology_add_bond (t : STopology) (i j : Nat) : STopology :=
  let b := (min i j, max i j)
  if b ∈ t.bonds then t else { t with bonds := t.bonds ++ [b] }

/-- The neighbours of atom `j` in the bond graph. -/
def neighbours (t : STopology) (j : Nat) : List Nat :=
  t.bonds.filterMap
    (fun b => if b.1 = j then some b.2 else if b.2 = j then some b.1 else none)

/-- Lexicographic order on angle triples. -/
def triple_le (a b : Nat × Nat × Nat) : Bool :=
  a.1 < b.1 || (a.1 = b.1 && (a.2.1 < b.2.1 || (a.2.1 = b.2.1 && a.2.2 ≤ b.2.2)))

/-- Modelled from the spec: `Topology::angles` (§4.1) — for every atom `j`,
for every unordered pair `{i, k}` of distinct neighbours of `j`, emit
`(min(i,k), j, max(i,k))`; the result is sorted and de-duplicated. -/
def angles (t : STopology) : List (Nat × Nat × Nat) :=
  List.insertionSort (fun a b => triple_le a b = true)
    (((List.range t.atoms.length).flatMap
      (fun j =>
        (neighbours t j).flatMap
          (fun i =>
            (neighbours t j).filterMap
              (fun k => if i < k then some (i, j, k) else none)))).dedup)

lemma countP_eq_one_of_nodup_mem {α : Type} [DecidableEq α] {x : α} {l : List α}
    (hd : l.Nodup) (hm : x ∈ l) :
    l.countP (fun a => decide (a = x)) = 1 := by
  induction l with
  | nil => cases hm
  | cons b tl ih =>
    rw [List.countP_cons]
    rcases List.mem_cons.mp hm with rfl | hm2
    · have hb : x ∉ tl := (List.nodup_cons.mp hd).1
      have hz : tl.countP (fun a => decide (a = x)) = 0 := by
        rw [List.countP_eq_zero]
        intro a ha
        simp only [decide_eq_true_eq]
        exact fun h => hb (h ▸ ha)
      simp [hz]
    · have hbx : ¬(b = x) := fun h => ((List.nodup_cons.mp hd).1 (h ▸ hm2))
      simp [hbx, ih (List.nodup_cons.mp hd).2 hm2]

lemma mem_neighbours_of_bond (t : STopology) (i j : Nat)
    (hb : (min i j, max i j) ∈ t.bonds) : i ∈ neighbours t j := by
  unfold neighbours
  rw [List.mem_filterMap]
  refine ⟨(min i j, max i j), hb, ?_⟩
  rcases Nat.lt_or_ge i j with h | h
  · have h1 : min i j = i := by omega
    have h2 : max i j = j := by omega
    rw [h1, h2]
    rw [if_neg (by omega), if_pos rfl]
  · have h1 : min i j = j := by omega
    have h2 : max i j = i := by omega
    rw [h1, h2]
    rw [if_pos rfl]

/-- The documented H-O-H example: three atoms, bonds 0–1 and 1–2. -/
def hoh_topology : STopology :=
  topology_add_bond
    (topology_add_bond
      (topology_add_atom (topology_add_atom (topology_add_atom ⟨[], []⟩ "H") "O") "H")
      0 1)
    1 2

/-- **C3.** For every pair of bonds sharing a common atom `j` with other
endpoints `i ≠ k`, the triple `(min(i,k), j, max(i,k))` appears exactly
once in `angles`; and in the documented H-O-H example the bonds are
`{(0,1), (1,2)}` and the angles exactly `{(0,1,2)}`. -/
theorem topology_angles_exactly_once :
    (∀ (t : STopology) (i j k : Nat),
      i ≠ j → j ≠ k → i ≠ k → j < t.atoms.length →
      (min i j, max i j) ∈ t.bonds → (min j k, max j k) ∈ t.bonds →
      (angles t).countP (fun a => decide (a = (min i k, j, max i k))) = 1) ∧
    hoh_topology.bonds = [(0, 1), (1, 2)] ∧
    angles hoh_topology = [(0, 1, 2)] := by
  refine ⟨?_, by decide, by decide⟩
  intro t i j k hij hjk hik hj hbij hbjk
  unfold angles
  rw [List.Perm.countP_eq _ (List.perm_insertionSort _ _)]
  apply countP_eq_one_of_nodup_mem (List.nodup_dedup _)
  rw [List.mem_dedup, List.mem_flatMap]
  refine ⟨j, List.mem_range.mpr hj, ?_⟩
  rw [List.mem_flatMap]
  have hi : i ∈ neighbours t j := mem_neighbours_of_bond t i j hbij
  have hk : k ∈ neighbours t j := by
    apply mem_neighbours_of_bond t k j
    have h1 : min k j = min j k := by omega
    have h2 : max k j = max j k := by omega
    rw [h1, h2]
    exact hbjk
  rcases Nat.lt_or_ge i k with h | h
  · refine ⟨i, hi, ?_⟩
    rw [List.mem_filterMap]
    refine ⟨k, hk, ?_⟩
    rw [if_pos h]
    have h1 : min i k = i := by omega
    have h2 : max i k = k := by omega
    rw [h1, h2]
  · have hki : k < i := by omega
    refine ⟨k, hk, ?_⟩
    rw [List.mem_filterMap]
    refine ⟨i, hi, ?_⟩
    rw [if_pos hki]
    have h1 : min i k = k := by omega
    have h2 : max i k = i := by omega
    rw [h1, h2]

/-- Witness for C3: the H-O-H angle `(0, 1, 2)` appears exactly once. -/
theorem topology_angles_exactly_once_witness :
    (angles hoh_topology).countP (fun a => decide (a = (min 0 2, 1, max 0 2))) = 1 :=
  topology_angles_exactly_once.1 hoh_topology 0 1 2 (by decide) (by decide) (by decide)
    (by decide) (by decide) (by decide)

/-! ## C10: the POSCAR single-frame stub -/

/-- The text file as seen by `POSCARFormat`: `pos` is the index of the next
line; the byte position is `0` exactly when `pos = 0`, since every read
line consumes at least one byte and `readline` at end of file does not move
the position. -/
structure PoscarFile where
  lines : List String
  pos : Nat
deriving DecidableEq, Repr

/-- `file_.readline()`: advance past one line if any remains. -/
def poscar_readline (f : PoscarFile) : PoscarFile :=
  if f.pos < f.lines.length then { f with pos := f.pos + 1 } else f

/-- `POSCARFormat::read_next`: a `FormatError` whenever the position is not
`0`; the body is a `TODO` stub in the source and reads nothing. -/
def poscar_read_next (f : PoscarFile) : Except String PoscarFile :=
  if f.pos ≠ 0 then .error "POSCAR format only supports reading one frame"
  else .ok f

/-- `POSCARFormat::write_next`: a `FormatError` whenever the position is
not `0`; the body is a `TODO` stub in the source and writes nothing. -/
def poscar_write_next (f : PoscarFile) : Except String PoscarFile :=
  if f.pos ≠ 0 then .error "POSCAR format only supports writing one frame"
  else .ok f

/-- `POSCARFormat::forward`: position `0` reports offset `0` and advances
the pointer by one readline; any other position reports `none`. -/
def poscar_forward (f : PoscarFile) : Option Nat × PoscarFile :=
  if f.pos = 0 then (some 0, poscar_readline f)
  else (none, f)

/-- **C10, counterexample.** On an *empty* file the first `readline` cannot
advance the position, so the second `forward` call still starts at position
`0` and again returns offset `0` instead of `None`. -/
theorem poscar_forward_counterexample :
    (poscar_forward ⟨[], 0⟩).1 = some 0 ∧
    (poscar_forward (poscar_forward ⟨[], 0⟩).2).1 = some 0 ∧
    some 0 ≠ (none : Option Nat) := by
  decide

/-- **C10, amended.** `read_next` and `write_next` throw a `FormatError`
exactly when the file position is non-zero; `forward` returns offset `0`
from position `0` and `None` from every non-zero position (leaving the
position unchanged, so later calls also return `None`); on a non-empty
file the first call advances the position past `0`, hence every subsequent
call returns `None` — but on an empty file every call returns offset `0`. -/
theorem poscar_single_frame (f : PoscarFile) :
    (f.pos ≠ 0 →
      poscar_read_next f = .error "POSCAR format only supports reading one frame" ∧
      poscar_write_next f = .error "POSCAR format only supports writing one frame") ∧
    (f.pos = 0 → poscar_read_next f = .ok f ∧ poscar_write_next f = .ok f) ∧
    (f.pos = 0 → (poscar_forward f).1 = some 0 ∧
      (f.lines ≠ [] → (poscar_forward f).2.pos ≠ 0)) ∧
    (f.pos ≠ 0 → (poscar_forward f).1 = none ∧ (poscar_forward f).2 = f) := by
  refine ⟨?_, ?_, ?_, ?_⟩
  · intro h
    exact ⟨by simp [poscar_read_next, h], by simp [poscar_write_next, h]⟩
  · intro h
    exact ⟨by simp [poscar_read_next, h], by simp [poscar_write_next, h]⟩
  · intro h
    refine ⟨by simp [poscar_forward, h], ?_⟩
    intro hne
    have hlen : 0 < f.lines.length := List.length_pos.mpr hne
    simp [poscar_forward, h, poscar_readline, hlen]
  · intro h
    exact ⟨by simp [poscar_forward, h], by simp [poscar_forward, h]⟩

/-- Witness for the amended C10: a one-line file at position `1` rejects
`read_next` and reports `None` from `forward`. -/
theorem poscar_single_frame_witness :
    poscar_read_next ⟨["POSCAR comment"], 1⟩ =
      .error "POSCAR format only supports reading one frame" ∧
    (poscar_forward ⟨["POSCAR comment"], 1⟩).1 = none :=
  ⟨((poscar_single_frame ⟨["POSCAR comment"], 1⟩).1 (by decide)).1,
   ((poscar_single_frame ⟨["POSCAR comment"], 1⟩).2.2.2 (by decide)).1⟩

/-! ## C7: the selection language

The AST mirrors `include/chemfiles/selections/expr.hpp`: boolean selectors
`And`, `Or`, `Not`, `All`, `None`, string selectors (`Type`, `Name`,
`Resname`; a value, an equality flag and an atom argument), and `Math`
comparisons over arithmetic expressions (`Add`, `Sub`, `Mul`, `Div`, `Pow`,
`Neg`, `Function`, `Number`, numeric properties).  The parser, tokenizer
and printer are not under `src/` and are modelled from the spec grammar
(§4.5): "selection strings modulo whitespace" are represented as lists of
words, numeric literals as decimal naturals, and the atom argument `(i)`
as its 1-based number with `i ∈ {1,2,3,4}` (default `1`). -/

inductive SProp where
  | typ | name | resname
deriving DecidableEq, Repr

inductive NProp where
  | index | resid | mass | x | y | z | vx | vy | vz
deriving DecidableEq, Repr

inductive SFunc where
  | sqrt | sin | cos | tan | expf | logf | absf
deriving DecidableEq, Repr

inductive CmpOp where
  | eq | ne | lt | le | gt | ge
deriving DecidableEq, Repr

inductive MathAst where
  | num (n : Nat)
  | prop (p : NProp) (arg : Nat)
  | fn (f : SFunc) (a : MathAst)
  | add (l r : MathAst)
  | sub (l r : MathAst)
  | mul (l r : MathAst)
  | div (l r : MathAst)
  | pow (l r : MathAst)
  | neg (a : MathAst)
deriving DecidableEq, Repr

inductive BAst where
  | and_ (l r : BAst)
  | or_ (l r : BAst)
  | not_ (a : BAst)
  | all
  | none_
  | str (p : SProp) (equals : Bool) (arg : Nat) (value : String)
  | math (op : CmpOp) (l r : MathAst)
deriving DecidableEq, Repr

inductive Arity where
  | one | pairs | three | four
deriving DecidableEq, Repr

structure Selection where
  arity : Arity
  ast : BAst
deriving DecidableEq, Repr

/-! ### Words -/

def sprop_word : SProp → String
  | .typ => "type" | .name => "name" | .resname => "resname"

def sprop_of_word (w : String) : Option SProp :=
  if w = "type" then some .typ
  else if w = "name" then some .name
  else if w = "resname" then some .resname
  else none

def nprop_word : NProp → String
  | .index => "index" | .resid => "resid" | .mass => "mass"
  | .x => "x" | .y => "y" | .z => "z"
  | .vx => "vx" | .vy => "vy" | .vz => "vz"

def nprop_of_word (w : String) : Option NProp :=
  if w = "index" then some .index
  else if w = "resid" then some .resid
  else if w = "mass" then some .mass
  else if w = "x" then some .x
  else if w = "y" then some .y
  else if w = "z" then some .z
  else if w = "vx" then some .vx
  else if w = "vy" then some .vy
  else if w = "vz" then some .vz
  else none

def func_word : SFunc → String
  | .sqrt => "sqrt" | .sin => "sin" | .cos => "cos" | .tan => "tan"
  | .expf => "exp" | .logf => "log" | .absf => "abs"

def func_of_word (w : String) : Option SFunc :=
  if w = "sqrt" then some .sqrt
  else if w = "sin" then some .sin
  else if w = "cos" then some .cos
  else if w = "tan" then some .tan
  else if w = "exp" then some .expf
  else if w = "log" then some .logf
  else if w = "abs" then some .absf
  else none

def cmp_word : CmpOp → String
  | .ge => ">="
  | .gt => ">"
  | .le => "<="
  | .lt => "<"
  | .ne => "!="
  | .eq => "=="

def cmp_of_word (w : String) : Option CmpOp :=
  if w = "==" then some .eq
  else if w = "!=" then some .ne
  else if w = "<" then some .lt
  else if w = "<=" then some .le
  else if w = ">" then some .gt
  else if w = ">=" then some .ge
  else none

/-- Decimal numeral for a natural number. -/
def nat_to_string (n : Nat) : String :=
  if n = 0 then "0"
  else String.mk ((Nat.digits 10 n).reverse.map (fun d => Char.ofNat ('0'.toNat + d)))

/-- Value of a decimal numeral. -/
def string_to_nat (w : String) : Nat :=
  w.toList.foldl (fun a c => 10 * a + (c.toNat - '0'.toNat)) 0

/-- Is the word a decimal numeral? -/
def is_digit_word (w : String) : Bool :=
  decide (w ≠ "") && w.toList.all (·.isDigit)

/-- The structural words of the selection language (keywords, parentheses,
comparison and arithmetic operators, arity prefixes). -/
def selection_keywords : List String :=
  ["(", ")", "and", "or", "not", "all", "none", "pairs:", "three:", "four:",
   "==", "!=", "<", "<=", ">", ">=", "+", "-", "*", "/", "^"]

/-- A word the tokenizer would classify as an identifier: not a structural
word and not a numeral. -/
def is_ident_word (w : String) : Bool :=
  decide (w ∉ selection_keywords) && !(is_digit_word w)

/-! ### The selection parser (modelled from the spec grammar, §4.5)

A recursive-descent parser with the grammar's precedence: `or` below
`and`, `not` tightest among the boolean operators; `+`/`-` below `*`/`/`
below `^` (right associative) below unary minus.  The fuel argument
decreases at every call; `parse_selection_words` supplies enough fuel for
any input. -/

/-- The optional atom argument `["(" N ")"]` with `N ∈ {1,2,3,4}`; absent
arguments default to atom `1` (§4.5). -/
def parse_arg (ws : List String) : Option (Nat × List String) :=
  match ws with
  | ow :: nw :: cw :: rest =>
    if ow = "(" ∧ cw = ")" then
      if is_digit_word nw then
        if 1 ≤ string_to_nat nw ∧ string_to_nat nw ≤ 4 then
          some (string_to_nat nw, rest)
        else none
      else none
    else some (1, ws)
  | _ => some (1, ws)

/-- `string_sel := ("type"|"name"|"resname") ["(" N ")"] ("=="|"!=") IDENT`. -/
def parse_string_sel (p : SProp) (ws : List String) : Option (BAst × List String) :=
  match parse_arg ws with
  | some (arg, r) =>
    match r with
    | cw :: vw :: rest =>
      if cw = "==" then
        if is_ident_word vw then some (.str p true arg vw, rest) else none
      else if cw = "!=" then
        if is_ident_word vw then some (.str p false arg vw, rest) else none
      else none
    | _ => none
  | none => none

mutual

def parse_or : Nat → List String → Option (BAst × List String)
  | 0, _ => none
  | f + 1, ws =>
    match parse_and f ws with
    | some (a, r) => parse_or_tail f a r
    | none => none

def parse_or_tail : Nat → BAst → List String → Option (BAst × List String)
  | 0, _, _ => none
  | f + 1, acc, ws =>
    match ws with
    | w :: rest =>
      if w = "or" then
        match parse_and f rest with
        | some (b, r) => parse_or_tail f (.or_ acc b) r
        | none => none
      else some (acc, ws)
    | [] => some (acc, [])

def parse_and : Nat → List String → Option (BAst × List String)
  | 0, _ => none
  | f + 1, ws =>
    match parse_not f ws with
    | some (a, r) => parse_and_tail f a r
    | none => none

def parse_and_tail : Nat → BAst → List String → Option (BAst × List String)
  | 0, _, _ => none
  | f + 1, acc, ws =>
    match ws with
    | w :: rest =>
      if w = "and" then
        match parse_not f rest with
        | some (b, r) => parse_and_tail f (.and_ acc b) r
        | none => none
      else some (acc, ws)
    | [] => some (acc, [])

def parse_not : Nat → List String → Option (BAst × List String)
  | 0, _ => none
  | f + 1, ws =>
    match ws with
    | w :: rest =>
      if w = "not" then
        match parse_not f rest with
        | some (a, r) => some (.not_ a, r)
        | none => none
      else parse_atom f ws
    | [] => none

def parse_atom : Nat → List String → Option (BAst × List String)
  | 0, _ => none
  | f + 1, ws =>
    match ws with
    | w :: r =>
      if w = "all" then some (.all, r)
      else if w = "none" then some (.none_, r)
      else
        match sprop_of_word w with
        | some p => parse_string_sel p r
        | none =>
          match parse_math_sel f ws with
          | some res => some res
          | none =>
            if w = "(" then
              match parse_or f r with
              | some (b, w2 :: r3) => if w2 = ")" then some (b, r3) else none
              | _ => none
            else none
    | [] => none

def parse_math_sel : Nat → List String → Option (BAst × List String)
  | 0, _ => none
  | f + 1, ws =>
    match parse_math_expr f ws with
    | some (m1, cw :: rest) =>
      match cmp_of_word cw with
      | some op =>
        match parse_math_expr f rest with
        | some (m2, r2) => some (.math op m1 m2, r2)
        | none => none
      | none => none
    | _ => none

def parse_math_expr : Nat → List String → Option (MathAst × List String)
  | 0, _ => none
  | f + 1, ws =>
    match parse_term f ws with
    | some (a, r) => parse_math_expr_tail f a r
    | none => none

def parse_math_expr_tail : Nat → MathAst → List String → Option (MathAst × List String)
  | 0, _, _ => none
  | f + 1, acc, ws =>
    match ws with
    | w :: rest =>
      if w = "+" then
        match parse_term f rest with
        | some (b, r) => parse_math_expr_tail f (.add acc b) r
        | none => none
      else if w = "-" then
        match parse_term f rest with
        | some (b, r) => parse_math_expr_tail f (.sub acc b) r
        | none => none
      else some (acc, ws)
    | [] => some (acc, [])

def parse_term : Nat → List String → Option (MathAst × List String)
  | 0, _ => none
  | f + 1, ws =>
    match parse_power f ws with
    | some (a, r) => parse_term_tail f a r
    | none => none

def parse_term_tail : Nat → MathAst → List String → Option (MathAst × List String)
  | 0, _, _ => none
  | f + 1, acc, ws =>
    match ws with
    | w :: rest =>
      if w = "*" then
        match parse_power f rest with
        | some (b, r) => parse_term_tail f (.mul acc b) r
        | none => none
      else if w = "/" then
        match parse_power f rest with
        | some (b, r) => parse_term_tail f (.div acc b) r
        | none => none
      else some (acc, ws)
    | [] => some (acc, [])

def parse_power : Nat → List String → Option (MathAst × List String)
  | 0, _ => none
  | f + 1, ws =>
    match parse_unary f ws with
    | some (u, r) =>
      match r with
      | w :: rest =>
        if w = "^" then
          match parse_power f rest with
          | some (p, r2) => some (.pow u p, r2)
          | none => none
        else some (u, r)
      | [] => some (u, [])
    | none => none

def parse_unary : Nat → List String → Option (MathAst × List String)
  | 0, _ => none
  | f + 1, ws =>
    match ws with
    | w :: rest =>
      if w = "-" then
        match parse_unary f rest with
        | some (a, r) => some (.neg a, r)
        | none => none
      else parse_primary f ws
    | [] => none

def parse_primary : Nat → List String → Option (MathAst × List String)
  | 0, _ => none
  | f + 1, ws =>
    match ws with
    | w :: r =>
      if w = "(" then
        match parse_math_expr f r with
        | some (m, w2 :: r3) => if w2 = ")" then some (m, r3) else none
        | _ => none
      else if is_digit_word w then some (.num (string_to_nat w), r)
      else
        match func_of_word w with
        | some fc =>
          match r with
          | w2 :: r2 =>
            if w2 = "(" then
              match parse_math_expr f r2 with
              | some (m, w3 :: r4) => if w3 = ")" then some (.fn fc m, r4) else none
              | _ => none
            else none
          | [] => none
        | none =>
          match nprop_of_word w with
          | some p =>
            match parse_arg r with
            | some (arg, r2) => some (.prop p arg, r2)
            | none => none
          | none => none
    | [] => none

end

/-- `selection := ("pairs:"|"three:"|"four:")? bool_expr`, with the whole
word list consumed. -/
def parse_selection_words (ws : List String) : Option Selection :=
  let full := fun (ar : Arity) (ws2 : List String) =>
    match parse_or (16 * ws.length + 16) ws2 with
    | some (b, []) => some (Selection.mk ar b)
    | _ => none
  match ws with
  | w :: rest =>
    if w = "pairs:" then full .pairs rest
    else if w = "three:" then full .three rest
    else if w = "four:" then full .four rest
    else full .one ws
  | [] => full .one ws

/-! ### The canonical printer -/

/-- Canonical printing of arithmetic expressions: compound expressions are
fully parenthesized, numeric properties always carry their argument. -/
def print_math : MathAst → List String
  | .num n => [nat_to_string n]
  | .prop p a => [nprop_word p, "(", nat_to_string a, ")"]
  | .fn f a => [func_word f, "("] ++ print_math a ++ [")"]
  | .add l r => ["("] ++ print_math l ++ ["+"] ++ print_math r ++ [")"]
  | .sub l r => ["("] ++ print_math l ++ ["-"] ++ print_math r ++ [")"]
  | .mul l r => ["("] ++ print_math l ++ ["*"] ++ print_math r ++ [")"]
  | .div l r => ["("] ++ print_math l ++ ["/"] ++ print_math r ++ [")"]
  | .pow l r => ["("] ++ print_math l ++ ["^"] ++ print_math r ++ [")"]
  | .neg a => ["(", "-"] ++ print_math a ++ [")"]

/-- Canonical printing of boolean selectors. -/
def print_bool : BAst → List String
  | .and_ l r => ["("] ++ print_bool l ++ ["and"] ++ print_bool r ++ [")"]
  | .or_ l r => ["("] ++ print_bool l ++ ["or"] ++ print_bool r ++ [")"]
  | .not_ a => "not" :: print_bool a
  | .all => ["all"]
  | .none_ => ["none"]
  | .str p equals arg v =>
    [sprop_word p, "(", nat_to_string arg, ")", if equals then "==" else "!=", v]
  | .math op l r => print_math l ++ [cmp_word op] ++ print_math r

/-- Canonical printing of a whole selection. -/
def print_selection (s : Selection) : List String :=
  (match s.arity with
   | .one => []
   | .pairs => ["pairs:"]
   | .three => ["three:"]
   | .four => ["four:"]) ++ print_bool s.ast


/-! ### C7 proofs: the parse/print round trip

Sizes and well-formedness of ASTs, numeral and word-classification facts,
dichotomy ("fails or consumes exactly the printed words") and success
lemmas for every parser level, failure of the math parser on printed
boolean selectors, and the round-trip theorem. -/

/-- Node count of a math AST. -/
def msize : MathAst → Nat
  | .num _ => 1
  | .prop _ _ => 1
  | .fn _ a => 1 + msize a
  | .add l r => 1 + msize l + msize r
  | .sub l r => 1 + msize l + msize r
  | .mul l r => 1 + msize l + msize r
  | .div l r => 1 + msize l + msize r
  | .pow l r => 1 + msize l + msize r
  | .neg a => 1 + msize a

/-- Node count of a boolean AST. -/
def bsize : BAst → Nat
  | .and_ l r => 1 + bsize l + bsize r
  | .or_ l r => 1 + bsize l + bsize r
  | .not_ a => 1 + bsize a
  | .all => 1
  | .none_ => 1
  | .str _ _ _ _ => 1
  | .math _ l r => 1 + msize l + msize r

/-- Well-formed math AST: atom arguments lie in `{1,2,3,4}`. -/
def wf_math : MathAst → Prop
  | .num _ => True
  | .prop _ a => 1 ≤ a ∧ a ≤ 4
  | .fn _ a => wf_math a
  | .add l r => wf_math l ∧ wf_math r
  | .sub l r => wf_math l ∧ wf_math r
  | .mul l r => wf_math l ∧ wf_math r
  | .div l r => wf_math l ∧ wf_math r
  | .pow l r => wf_math l ∧ wf_math r
  | .neg a => wf_math a

/-- Well-formed boolean AST: string selector values are identifier words and
atom arguments lie in `{1,2,3,4}`. -/
def wf_bool : BAst → Prop
  | .and_ l r => wf_bool l ∧ wf_bool r
  | .or_ l r => wf_bool l ∧ wf_bool r
  | .not_ a => wf_bool a
  | .all => True
  | .none_ => True
  | .str _ _ a v => (1 ≤ a ∧ a ≤ 4) ∧ is_ident_word v = true
  | .math _ l r => wf_math l ∧ wf_math r

lemma msize_pos (m : MathAst) : 1 ≤ msize m := by
  cases m <;> simp [msize] <;> omega

lemma bsize_pos (b : BAst) : 1 ≤ bsize b := by
  cases b <;> simp [bsize] <;> omega

/-- Every decimal numeral is a digit word. -/
lemma nat_to_string_digit (n : Nat) : is_digit_word (nat_to_string n) = true := by
  unfold nat_to_string
  by_cases h : n = 0
  · simp [h]; decide
  · rw [if_neg h]
    unfold is_digit_word
    rw [Bool.and_eq_true]
    constructor
    · rw [decide_eq_true_iff]
      intro he
      have : ((Nat.digits 10 n).reverse.map (fun d => Char.ofNat ('0'.toNat + d))) = [] := by
        have := congrArg String.toList he
        simpa using this
      simp [Nat.digits_eq_nil_iff_eq_zero] at this
      exact h this
    · rw [List.all_eq_true]
      intro c hc
      have hc2 : c ∈ ((Nat.digits 10 n).reverse.map (fun d => Char.ofNat ('0'.toNat + d))) := by
        simpa using hc
      rw [List.mem_map] at hc2
      obtain ⟨d, hd, rfl⟩ := hc2
      rw [List.mem_reverse] at hd
      have hlt : d < 10 := Nat.digits_lt_base (by norm_num) hd
      interval_cases d <;> decide

lemma char_toNat_digit (d : Nat) (hd : d < 10) :
    (Char.ofNat ('0'.toNat + d)).toNat - '0'.toNat = d := by
  interval_cases d <;> decide

lemma char_fold_digit (d : Nat) (hd : d < 10) (a : Nat) :
    10 * a + ((Char.ofNat ('0'.toNat + d)).toNat - '0'.toNat) = 10 * a + d := by
  rw [char_toNat_digit d hd]

/-- Evaluating a printed numeral gives the number back. -/
lemma string_to_nat_nat_to_string (n : Nat) : string_to_nat (nat_to_string n) = n := by
  unfold nat_to_string
  by_cases h : n = 0
  · simp [h]; decide
  · rw [if_neg h]
    unfold string_to_nat
    have htl : (String.mk ((Nat.digits 10 n).reverse.map
        (fun d => Char.ofNat ('0'.toNat + d)))).toList
        = (Nat.digits 10 n).reverse.map (fun d => Char.ofNat ('0'.toNat + d)) := rfl
    rw [htl, List.foldl_map]
    have hcong : ((Nat.digits 10 n).reverse.foldl
        (fun a d => 10 * a + ((Char.ofNat ('0'.toNat + d)).toNat - '0'.toNat)) 0)
        = ((Nat.digits 10 n).reverse.foldl (fun a d => 10 * a + d) 0) := by
      apply List.foldl_ext
      intro a d hd
      rw [List.mem_reverse] at hd
      exact char_fold_digit d (Nat.digits_lt_base (by norm_num) hd) a
    rw [hcong, List.foldl_reverse]
    have hofd : ∀ L : List Nat, L.foldr (fun d a => 10 * a + d) 0 = Nat.ofDigits 10 L := by
      intro L
      induction L with
      | nil => simp [Nat.ofDigits]
      | cons d L ih => simp [Nat.ofDigits, ih]; omega
    have := hofd (Nat.digits 10 n)
    simp only [this]
    exact_mod_cast Nat.ofDigits_digits 10 n

/-- Two words with different digit-word status differ. -/
lemma is_digit_word_ne {w : String} (v : String) (h : is_digit_word w = true)
    (hv : is_digit_word v = false) : w ≠ v := by
  intro e; rw [e, hv] at h; cases h

lemma digit_not_lparen {w : String} (h : is_digit_word w = true) : w ≠ "(" :=
  is_digit_word_ne "(" h (by decide)

lemma digit_sprop_none {w : String} (h : is_digit_word w = true) :
    sprop_of_word w = none := by
  unfold sprop_of_word
  rw [if_neg (is_digit_word_ne "type" h (by decide)),
    if_neg (is_digit_word_ne "name" h (by decide)),
    if_neg (is_digit_word_ne "resname" h (by decide))]

lemma digit_func_none {w : String} (h : is_digit_word w = true) :
    func_of_word w = none := by
  unfold func_of_word
  rw [if_neg (is_digit_word_ne "sqrt" h (by decide)),
    if_neg (is_digit_word_ne "sin" h (by decide)),
    if_neg (is_digit_word_ne "cos" h (by decide)),
    if_neg (is_digit_word_ne "tan" h (by decide)),
    if_neg (is_digit_word_ne "exp" h (by decide)),
    if_neg (is_digit_word_ne "log" h (by decide)),
    if_neg (is_digit_word_ne "abs" h (by decide))]

lemma digit_nprop_none {w : String} (h : is_digit_word w = true) :
    nprop_of_word w = none := by
  unfold nprop_of_word
  rw [if_neg (is_digit_word_ne "index" h (by decide)),
    if_neg (is_digit_word_ne "resid" h (by decide)),
    if_neg (is_digit_word_ne "mass" h (by decide)),
    if_neg (is_digit_word_ne "x" h (by decide)),
    if_neg (is_digit_word_ne "y" h (by decide)),
    if_neg (is_digit_word_ne "z" h (by decide)),
    if_neg (is_digit_word_ne "vx" h (by decide)),
    if_neg (is_digit_word_ne "vy" h (by decide)),
    if_neg (is_digit_word_ne "vz" h (by decide))]

/-- The head word of a printed math expression: it is never an operator,
a boolean keyword, a string property or an arity prefix. -/
lemma print_math_head_facts (m : MathAst) (w : String) (tws : List String)
    (h : print_math m = w :: tws) :
    w ≠ "-" ∧ w ≠ "not" ∧ w ≠ "all" ∧ w ≠ "none" ∧ sprop_of_word w = none ∧
    w ≠ "pairs:" ∧ w ≠ "three:" ∧ w ≠ "four:" := by
  cases m with
  | num n =>
    simp [print_math] at h
    obtain ⟨rfl, -⟩ := h
    have hd := nat_to_string_digit n
    exact ⟨is_digit_word_ne "-" hd (by decide), is_digit_word_ne "not" hd (by decide),
      is_digit_word_ne "all" hd (by decide), is_digit_word_ne "none" hd (by decide),
      digit_sprop_none hd, is_digit_word_ne "pairs:" hd (by decide),
      is_digit_word_ne "three:" hd (by decide), is_digit_word_ne "four:" hd (by decide)⟩
  | prop p a =>
    simp [print_math] at h
    obtain ⟨rfl, -⟩ := h
    cases p <;> exact ⟨by decide, by decide, by decide, by decide, by decide,
      by decide, by decide, by decide⟩
  | fn f a =>
    simp [print_math] at h
    obtain ⟨rfl, -⟩ := h
    cases f <;> exact ⟨by decide, by decide, by decide, by decide, by decide,
      by decide, by decide, by decide⟩
  | add l r =>
    simp [print_math] at h
    obtain ⟨rfl, -⟩ := h
    exact ⟨by decide, by decide, by decide, by decide, by decide,
      by decide, by decide, by decide⟩
  | sub l r =>
    simp [print_math] at h
    obtain ⟨rfl, -⟩ := h
    exact ⟨by decide, by decide, by decide, by decide, by decide,
      by decide, by decide, by decide⟩
  | mul l r =>
    simp [print_math] at h
    obtain ⟨rfl, -⟩ := h
    exact ⟨by decide, by decide, by decide, by decide, by decide,
      by decide, by decide, by decide⟩
  | div l r =>
    simp [print_math] at h
    obtain ⟨rfl, -⟩ := h
    exact ⟨by decide, by decide, by decide, by decide, by decide,
      by decide, by decide, by decide⟩
  | pow l r =>
    simp [print_math] at h
    obtain ⟨rfl, -⟩ := h
    exact ⟨by decide, by decide, by decide, by decide, by decide,
      by decide, by decide, by decide⟩
  | neg a =>
    simp [print_math] at h
    obtain ⟨rfl, -⟩ := h
    exact ⟨by decide, by decide, by decide, by decide, by decide,
      by decide, by decide, by decide⟩

lemma print_math_ne_nil (m : MathAst) : print_math m ≠ [] := by
  cases m <;> simp [print_math]

lemma print_bool_ne_nil (b : BAst) : print_bool b ≠ [] := by
  cases b <;> simp [print_bool]

lemma parse_math_expr_tail_stop (f : Nat) (acc : MathAst) (w : String) (ws : List String)
    (h1 : w ≠ "+") (h2 : w ≠ "-") :
    parse_math_expr_tail (f + 1) acc (w :: ws) = some (acc, w :: ws) := by
  simp [parse_math_expr_tail, h1, h2]

lemma parse_math_expr_tail_nil (f : Nat) (acc : MathAst) :
    parse_math_expr_tail (f + 1) acc [] = some (acc, []) := by
  simp [parse_math_expr_tail]

lemma parse_term_tail_stop (f : Nat) (acc : MathAst) (w : String) (ws : List String)
    (h1 : w ≠ "*") (h2 : w ≠ "/") :
    parse_term_tail (f + 1) acc (w :: ws) = some (acc, w :: ws) := by
  simp [parse_term_tail, h1, h2]

lemma parse_term_tail_nil (f : Nat) (acc : MathAst) :
    parse_term_tail (f + 1) acc [] = some (acc, []) := by
  simp [parse_term_tail]

lemma parse_or_tail_stop (f : Nat) (acc : BAst) (w : String) (ws : List String)
    (h1 : w ≠ "or") :
    parse_or_tail (f + 1) acc (w :: ws) = some (acc, w :: ws) := by
  simp [parse_or_tail, h1]

lemma parse_or_tail_nil (f : Nat) (acc : BAst) :
    parse_or_tail (f + 1) acc [] = some (acc, []) := by
  simp [parse_or_tail]

lemma parse_and_tail_stop (f : Nat) (acc : BAst) (w : String) (ws : List String)
    (h1 : w ≠ "and") :
    parse_and_tail (f + 1) acc (w :: ws) = some (acc, w :: ws) := by
  simp [parse_and_tail, h1]

lemma parse_and_tail_nil (f : Nat) (acc : BAst) :
    parse_and_tail (f + 1) acc [] = some (acc, []) := by
  simp [parse_and_tail]

/-- If the primary parser fails on an input (not starting with a unary
minus) at every fuel, so do all the levels above it. -/
lemma math_none_chain (input : List String) (hhead : input.head? ≠ some "-")
    (h : ∀ g, parse_primary g input = none) :
    (∀ f, parse_unary f input = none) ∧ (∀ f, parse_power f input = none) ∧
    (∀ f, parse_term f input = none) ∧ (∀ f, parse_math_expr f input = none) ∧
    (∀ f, parse_math_sel f input = none) := by
  have hu : ∀ f, parse_unary f input = none := by
    intro f
    cases f with
    | zero => simp [parse_unary]
    | succ f =>
      cases input with
      | nil => simp [parse_unary]
      | cons w ws =>
        have hw : w ≠ "-" := by
          intro e; rw [e] at hhead; exact hhead rfl
        simp [parse_unary, hw, h f]
  have hp : ∀ f, parse_power f input = none := by
    intro f
    cases f with
    | zero => simp [parse_power]
    | succ f => simp [parse_power, hu f]
  have ht : ∀ f, parse_term f input = none := by
    intro f
    cases f with
    | zero => simp [parse_term]
    | succ f => simp [parse_term, hp f]
  have he : ∀ f, parse_math_expr f input = none := by
    intro f
    cases f with
    | zero => simp [parse_math_expr]
    | succ f => simp [parse_math_expr, ht f]
  refine ⟨hu, hp, ht, he, ?_⟩
  intro f
  cases f with
  | zero => simp [parse_math_sel]
  | succ f => simp [parse_math_sel, he f]

/-- Dichotomy lift: if the primary parser on `print_math m ++ rest` either
fails or returns exactly `(m, rest)`, the same holds for the unary, power,
term and expression levels (under suitable conditions on the next word). -/
lemma math_lift_d (m : MathAst)
    (hd : ∀ f rest, parse_primary f (print_math m ++ rest) = none ∨
                    parse_primary f (print_math m ++ rest) = some (m, rest)) :
    (∀ f rest, parse_unary f (print_math m ++ rest) = none ∨
               parse_unary f (print_math m ++ rest) = some (m, rest)) ∧
    (∀ f rest, rest.head? ≠ some "^" →
       (parse_power f (print_math m ++ rest) = none ∨
        parse_power f (print_math m ++ rest) = some (m, rest))) ∧
    (∀ f rest, rest.head? ≠ some "^" → rest.head? ≠ some "*" → rest.head? ≠ some "/" →
       (parse_term f (print_math m ++ rest) = none ∨
        parse_term f (print_math m ++ rest) = some (m, rest))) ∧
    (∀ f rest, rest.head? ≠ some "^" → rest.head? ≠ some "*" → rest.head? ≠ some "/" →
       rest.head? ≠ some "+" → rest.head? ≠ some "-" →
       (parse_math_expr f (print_math m ++ rest) = none ∨
        parse_math_expr f (print_math m ++ rest) = some (m, rest))) := by
  have hu : ∀ f rest, parse_unary f (print_math m ++ rest) = none ∨
      parse_unary f (print_math m ++ rest) = some (m, rest) := by
    intro f rest
    cases f with
    | zero => left; simp [parse_unary]
    | succ f =>
      obtain ⟨w, tws, hpm⟩ : ∃ w tws, print_math m = w :: tws := by
        cases hh : print_math m with
        | nil => exact absurd hh (print_math_ne_nil m)
        | cons w tws => exact ⟨w, tws, rfl⟩
      have hw := (print_math_head_facts m w tws hpm).1
      rw [hpm, List.cons_append]
      have : parse_unary (f + 1) (w :: (tws ++ rest)) =
          parse_primary f (w :: (tws ++ rest)) := by
        simp [parse_unary, hw]
      rw [this, ← List.cons_append, ← hpm]
      exact hd f rest
  have hp : ∀ f rest, rest.head? ≠ some "^" →
      (parse_power f (print_math m ++ rest) = none ∨
       parse_power f (print_math m ++ rest) = some (m, rest)) := by
    intro f rest hna
    cases f with
    | zero => left; simp [parse_power]
    | succ f =>
      rcases hu f rest with h1 | h1
      · left; simp [parse_power, h1]
      · cases rest with
        | nil =>
          rw [List.append_nil] at h1
          right; simp [parse_power, h1]
        | cons w rs =>
          have hw : w ≠ "^" := by
            intro e; rw [e] at hna; exact hna rfl
          right; simp [parse_power, h1, hw]
  have ht : ∀ f rest, rest.head? ≠ some "^" → rest.head? ≠ some "*" → rest.head? ≠ some "/" →
      (parse_term f (print_math m ++ rest) = none ∨
       parse_term f (print_math m ++ rest) = some (m, rest)) := by
    intro f rest h1 h2 h3
    cases f with
    | zero => left; simp [parse_term]
    | succ f =>
      rcases hp f rest h1 with h4 | h4
      · left; simp [parse_term, h4]
      · cases f with
        | zero => left; simp [parse_term, h4, parse_term_tail]
        | succ f =>
          cases rest with
          | nil =>
            rw [List.append_nil] at h4
            right; simp [parse_term, h4, parse_term_tail_nil]
          | cons w rs =>
            have hw2 : w ≠ "*" := by intro e; rw [e] at h2; exact h2 rfl
            have hw3 : w ≠ "/" := by intro e; rw [e] at h3; exact h3 rfl
            right; simp [parse_term, h4, parse_term_tail_stop _ _ _ _ hw2 hw3]
  refine ⟨hu, hp, ht, ?_⟩
  intro f rest h1 h2 h3 h4 h5
  cases f with
  | zero => left; simp [parse_math_expr]
  | succ f =>
    rcases ht f rest h1 h2 h3 with h6 | h6
    · left; simp [parse_math_expr, h6]
    · cases f with
      | zero => left; simp [parse_math_expr, h6, parse_math_expr_tail]
      | succ f =>
        cases rest with
        | nil =>
          rw [List.append_nil] at h6
          right; simp [parse_math_expr, h6, parse_math_expr_tail_nil]
        | cons w rs =>
          have hw4 : w ≠ "+" := by intro e; rw [e] at h4; exact h4 rfl
          have hw5 : w ≠ "-" := by intro e; rw [e] at h5; exact h5 rfl
          right; simp [parse_math_expr, h6, parse_math_expr_tail_stop _ _ _ _ hw4 hw5]

/-- Success lift: if the primary parser succeeds on `print_math m ++ rest`
with enough fuel, so do the unary, power, term and expression levels. -/
lemma math_lift_s (m : MathAst) (B : Nat)
    (hs : ∀ f rest, B ≤ f → parse_primary f (print_math m ++ rest) = some (m, rest)) :
    (∀ f rest, B + 1 ≤ f → parse_unary f (print_math m ++ rest) = some (m, rest)) ∧
    (∀ f rest, rest.head? ≠ some "^" → B + 2 ≤ f →
        parse_power f (print_math m ++ rest) = some (m, rest)) ∧
    (∀ f rest, rest.head? ≠ some "^" → rest.head? ≠ some "*" → rest.head? ≠ some "/" →
        B + 4 ≤ f → parse_term f (print_math m ++ rest) = some (m, rest)) ∧
    (∀ f rest, rest.head? ≠ some "^" → rest.head? ≠ some "*" → rest.head? ≠ some "/" →
       rest.head? ≠ some "+" → rest.head? ≠ some "-" →
        B + 6 ≤ f → parse_math_expr f (print_math m ++ rest) = some (m, rest)) := by
  have hu : ∀ f rest, B + 1 ≤ f → parse_unary f (print_math m ++ rest) = some (m, rest) := by
    intro f rest hf
    obtain ⟨g, rfl⟩ : ∃ g, f = g + 1 := ⟨f - 1, by omega⟩
    obtain ⟨w, tws, hpm⟩ : ∃ w tws, print_math m = w :: tws := by
      cases hh : print_math m with
      | nil => exact absurd hh (print_math_ne_nil m)
      | cons w tws => exact ⟨w, tws, rfl⟩
    have hw := (print_math_head_facts m w tws hpm).1
    rw [hpm, List.cons_append]
    have : parse_unary (g + 1) (w :: (tws ++ rest)) =
        parse_primary g (w :: (tws ++ rest)) := by
      simp [parse_unary, hw]
    rw [this, ← List.cons_append, ← hpm]
    exact hs g rest (by omega)
  have hp : ∀ f rest, rest.head? ≠ some "^" → B + 2 ≤ f →
      parse_power f (print_math m ++ rest) = some (m, rest) := by
    intro f rest hna hf
    obtain ⟨g, rfl⟩ : ∃ g, f = g + 1 := ⟨f - 1, by omega⟩
    have h1 := hu g rest (by omega)
    cases rest with
    | nil =>
      rw [List.append_nil] at h1
      simp [parse_power, h1]
    | cons w rs =>
      have hw : w ≠ "^" := by intro e; rw [e] at hna; exact hna rfl
      simp [parse_power, h1, hw]
  have ht : ∀ f rest, rest.head? ≠ some "^" → rest.head? ≠ some "*" →
      rest.head? ≠ some "/" → B + 4 ≤ f →
      parse_term f (print_math m ++ rest) = some (m, rest) := by
    intro f rest h1 h2 h3 hf
    obtain ⟨g, rfl⟩ : ∃ g, f = g + 1 := ⟨f - 1, by omega⟩
    obtain ⟨g2, rfl⟩ : ∃ g2, g = g2 + 1 := ⟨g - 1, by omega⟩
    have h4 := hp (g2 + 1) rest h1 (by omega)
    cases rest with
    | nil =>
      rw [List.append_nil] at h4
      simp [parse_term, h4, parse_term_tail_nil]
    | cons w rs =>
      have hw2 : w ≠ "*" := by intro e; rw [e] at h2; exact h2 rfl
      have hw3 : w ≠ "/" := by intro e; rw [e] at h3; exact h3 rfl
      simp [parse_term, h4, parse_term_tail_stop _ _ _ _ hw2 hw3]
  refine ⟨hu, hp, ht, ?_⟩
  intro f rest h1 h2 h3 h4 h5 hf
  obtain ⟨g, rfl⟩ : ∃ g, f = g + 1 := ⟨f - 1, by omega⟩
  obtain ⟨g2, rfl⟩ : ∃ g2, g = g2 + 1 := ⟨g - 1, by omega⟩
  have h6 := ht (g2 + 1) rest h1 h2 h3 (by omega)
  cases rest with
  | nil =>
    rw [List.append_nil] at h6
    simp [parse_math_expr, h6, parse_math_expr_tail_nil]
  | cons w rs =>
    have hw4 : w ≠ "+" := by intro e; rw [e] at h4; exact h4 rfl
    have hw5 : w ≠ "-" := by intro e; rw [e] at h5; exact h5 rfl
    simp [parse_math_expr, h6, parse_math_expr_tail_stop _ _ _ _ hw4 hw5]

/-- Dichotomy for a parenthesised primary, given dichotomy of the inner
expression parse. -/
lemma primary_paren_d (m : MathAst) (inner rest : List String)
    (hinner : ∀ f, parse_math_expr f inner = none ∨
        parse_math_expr f inner = some (m, ")" :: rest)) :
    ∀ f, parse_primary f ("(" :: inner) = none ∨
        parse_primary f ("(" :: inner) = some (m, rest) := by
  intro f
  cases f with
  | zero => left; simp [parse_primary]
  | succ f =>
    rcases hinner f with h | h
    · left; simp [parse_primary, h]
    · right; simp [parse_primary, h]

/-- Success for a parenthesised primary, given success of the inner
expression parse. -/
lemma primary_paren_s (m : MathAst) (inner rest : List String) (B : Nat)
    (hinner : ∀ f, B ≤ f → parse_math_expr f inner = some (m, ")" :: rest)) :
    ∀ f, B + 1 ≤ f → parse_primary f ("(" :: inner) = some (m, rest) := by
  intro f hf
  obtain ⟨g, rfl⟩ : ∃ g, f = g + 1 := ⟨f - 1, by omega⟩
  simp [parse_primary, hinner g (by omega)]

/-- Dichotomy for the inner words of a printed `+`/`-` node. -/
lemma inner_expr_d_addsub (l r : MathAst) (w : String) (acc : MathAst → MathAst → MathAst)
    (hstep : ∀ h accv R, parse_math_expr_tail (h + 1) accv (w :: R) =
       (match parse_term h R with
        | some (b, r2) => parse_math_expr_tail h (acc accv b) r2
        | none => none))
    (Dtl : ∀ f R, R.head? ≠ some "^" → R.head? ≠ some "*" → R.head? ≠ some "/" →
        (parse_term f (print_math l ++ R) = none ∨
         parse_term f (print_math l ++ R) = some (l, R)))
    (Dtr : ∀ f R, R.head? ≠ some "^" → R.head? ≠ some "*" → R.head? ≠ some "/" →
        (parse_term f (print_math r ++ R) = none ∨
         parse_term f (print_math r ++ R) = some (r, R)))
    (hw1 : w ≠ "^") (hw2 : w ≠ "*") (hw3 : w ≠ "/") :
    ∀ f rest,
      parse_math_expr f (print_math l ++ (w :: (print_math r ++ ")" :: rest))) = none ∨
      parse_math_expr f (print_math l ++ (w :: (print_math r ++ ")" :: rest))) =
        some (acc l r, ")" :: rest) := by
  intro f rest
  cases f with
  | zero => left; simp [parse_math_expr]
  | succ g =>
    rcases Dtl g (w :: (print_math r ++ ")" :: rest))
        (by simp [hw1]) (by simp [hw2]) (by simp [hw3]) with h1 | h1
    · left; simp [parse_math_expr, h1]
    · cases g with
      | zero => left; simp [parse_math_expr, h1, parse_math_expr_tail]
      | succ h =>
        have e1 : parse_math_expr (h + 1 + 1)
              (print_math l ++ (w :: (print_math r ++ ")" :: rest))) =
            parse_math_expr_tail (h + 1) l (w :: (print_math r ++ ")" :: rest)) := by
          simp [parse_math_expr, h1]
        rw [e1, hstep h l (print_math r ++ ")" :: rest)]
        rcases Dtr h (")" :: rest) (by simp) (by simp) (by simp) with h2 | h2
        · left; simp [h2]
        · cases h with
          | zero => left; simp [h2, parse_math_expr_tail]
          | succ k =>
            right
            simp [h2, parse_math_expr_tail_stop k (acc l r) ")" rest
              (by decide) (by decide)]

/-- Success for the inner words of a printed `+`/`-` node. -/
lemma inner_expr_s_addsub (l r : MathAst) (w : String) (acc : MathAst → MathAst → MathAst)
    (Bl Br : Nat)
    (hstep : ∀ h accv R, parse_math_expr_tail (h + 1) accv (w :: R) =
       (match parse_term h R with
        | some (b, r2) => parse_math_expr_tail h (acc accv b) r2
        | none => none))
    (Stl : ∀ f R, R.head? ≠ some "^" → R.head? ≠ some "*" → R.head? ≠ some "/" →
        Bl ≤ f → parse_term f (print_math l ++ R) = some (l, R))
    (Str : ∀ f R, R.head? ≠ some "^" → R.head? ≠ some "*" → R.head? ≠ some "/" →
        Br ≤ f → parse_term f (print_math r ++ R) = some (r, R))
    (hw1 : w ≠ "^") (hw2 : w ≠ "*") (hw3 : w ≠ "/") :
    ∀ f rest, Bl + Br + 3 ≤ f →
      parse_math_expr f (print_math l ++ (w :: (print_math r ++ ")" :: rest))) =
        some (acc l r, ")" :: rest) := by
  intro f rest hf
  obtain ⟨k, rfl⟩ : ∃ k, f = k + 3 := ⟨f - 3, by omega⟩
  have h1 := Stl (k + 2) (w :: (print_math r ++ ")" :: rest))
      (by simp [hw1]) (by simp [hw2]) (by simp [hw3]) (by omega)
  have e1 : parse_math_expr (k + 3)
        (print_math l ++ (w :: (print_math r ++ ")" :: rest))) =
      parse_math_expr_tail (k + 2) l (w :: (print_math r ++ ")" :: rest)) := by
    rw [show k + 3 = (k + 2) + 1 from rfl]
    simp [parse_math_expr, h1]
  rw [e1, hstep (k + 1) l (print_math r ++ ")" :: rest)]
  have h2 := Str (k + 1) (")" :: rest) (by simp) (by simp) (by simp) (by omega)
  simp [h2, parse_math_expr_tail_stop k (acc l r) ")" rest (by decide) (by decide)]

/-- Dichotomy for the inner words of a printed `*`/`/` node. -/
lemma inner_expr_d_muldiv (l r : MathAst) (w : String) (acc : MathAst → MathAst → MathAst)
    (hstep : ∀ h accv R, parse_term_tail (h + 1) accv (w :: R) =
       (match parse_power h R with
        | some (b, r2) => parse_term_tail h (acc accv b) r2
        | none => none))
    (Dpl : ∀ f R, R.head? ≠ some "^" →
        (parse_power f (print_math l ++ R) = none ∨
         parse_power f (print_math l ++ R) = some (l, R)))
    (Dpr : ∀ f R, R.head? ≠ some "^" →
        (parse_power f (print_math r ++ R) = none ∨
         parse_power f (print_math r ++ R) = some (r, R)))
    (hw1 : w ≠ "^") (_hw2 : w ≠ "+") (_hw3 : w ≠ "-") :
    ∀ f rest,
      parse_math_expr f (print_math l ++ (w :: (print_math r ++ ")" :: rest))) = none ∨
      parse_math_expr f (print_math l ++ (w :: (print_math r ++ ")" :: rest))) =
        some (acc l r, ")" :: rest) := by
  intro f rest
  cases f with
  | zero => left; simp [parse_math_expr]
  | succ g =>
    cases g with
    | zero => left; simp [parse_math_expr, parse_term]
    | succ h =>
      rcases Dpl h (w :: (print_math r ++ ")" :: rest)) (by simp [hw1]) with h1 | h1
      · left; simp [parse_math_expr, parse_term, h1]
      · have e1 : parse_term (h + 1)
            (print_math l ++ (w :: (print_math r ++ ")" :: rest))) =
            parse_term_tail h l (w :: (print_math r ++ ")" :: rest)) := by
          simp [parse_term, h1]
        cases h with
        | zero => left; simp [parse_math_expr, e1, parse_term_tail]
        | succ h2 =>
          rw [hstep h2 l (print_math r ++ ")" :: rest)] at e1
          rcases Dpr h2 (")" :: rest) (by simp) with h2' | h2'
          · left; simp [parse_math_expr, e1, h2']
          · rw [h2'] at e1
            dsimp only at e1
            cases h2 with
            | zero => left; simp [parse_math_expr, e1, parse_term_tail]
            | succ k =>
              right
              rw [parse_term_tail_stop k (acc l r) ")" rest (by decide) (by decide)] at e1
              have e2 : parse_math_expr (k + 1 + 1 + 1 + 1)
                  (print_math l ++ (w :: (print_math r ++ ")" :: rest))) =
                  parse_math_expr_tail (k + 1 + 1 + 1) (acc l r) (")" :: rest) := by
                simp [parse_math_expr, e1]
              rw [e2, parse_math_expr_tail_stop _ _ _ _ (by decide) (by decide)]

/-- Success for the inner words of a printed `*`/`/` node. -/
lemma inner_expr_s_muldiv (l r : MathAst) (w : String) (acc : MathAst → MathAst → MathAst)
    (Bl Br : Nat)
    (hstep : ∀ h accv R, parse_term_tail (h + 1) accv (w :: R) =
       (match parse_power h R with
        | some (b, r2) => parse_term_tail h (acc accv b) r2
        | none => none))
    (Spl : ∀ f R, R.head? ≠ some "^" → Bl ≤ f →
        parse_power f (print_math l ++ R) = some (l, R))
    (Spr : ∀ f R, R.head? ≠ some "^" → Br ≤ f →
        parse_power f (print_math r ++ R) = some (r, R))
    (hw1 : w ≠ "^") (_hw2 : w ≠ "+") (_hw3 : w ≠ "-") :
    ∀ f rest, Bl + Br + 4 ≤ f →
      parse_math_expr f (print_math l ++ (w :: (print_math r ++ ")" :: rest))) =
        some (acc l r, ")" :: rest) := by
  intro f rest hf
  obtain ⟨k, rfl⟩ : ∃ k, f = k + 4 := ⟨f - 4, by omega⟩
  have h1 := Spl (k + 2) (w :: (print_math r ++ ")" :: rest)) (by simp [hw1]) (by omega)
  have e1 : parse_term (k + 3)
      (print_math l ++ (w :: (print_math r ++ ")" :: rest))) =
      parse_term_tail (k + 2) l (w :: (print_math r ++ ")" :: rest)) := by
    rw [show k + 3 = (k + 2) + 1 from rfl]
    simp [parse_term, h1]
  rw [hstep (k + 1) l (print_math r ++ ")" :: rest)] at e1
  have h2 := Spr (k + 1) (")" :: rest) (by simp) (by omega)
  rw [h2] at e1
  dsimp only at e1
  rw [parse_term_tail_stop k (acc l r) ")" rest (by decide) (by decide)] at e1
  have e2 : parse_math_expr (k + 4)
      (print_math l ++ (w :: (print_math r ++ ")" :: rest))) =
      parse_math_expr_tail (k + 3) (acc l r) (")" :: rest) := by
    rw [show k + 4 = (k + 3) + 1 from rfl]
    simp [parse_math_expr, e1]
  rw [e2, parse_math_expr_tail_stop _ _ _ _ (by decide) (by decide)]

/-- Dichotomy for the inner words of a printed `^` node. -/
lemma inner_expr_d_pow (l r : MathAst)
    (Dul : ∀ f R, parse_unary f (print_math l ++ R) = none ∨
        parse_unary f (print_math l ++ R) = some (l, R))
    (Dpr : ∀ f R, R.head? ≠ some "^" →
        (parse_power f (print_math r ++ R) = none ∨
         parse_power f (print_math r ++ R) = some (r, R))) :
    ∀ f rest,
      parse_math_expr f (print_math l ++ ("^" :: (print_math r ++ ")" :: rest))) = none ∨
      parse_math_expr f (print_math l ++ ("^" :: (print_math r ++ ")" :: rest))) =
        some (MathAst.pow l r, ")" :: rest) := by
  intro f rest
  cases f with
  | zero => left; simp [parse_math_expr]
  | succ g =>
    cases g with
    | zero => left; simp [parse_math_expr, parse_term]
    | succ h =>
      cases h with
      | zero => left; simp [parse_math_expr, parse_term, parse_power]
      | succ h2 =>
        rcases Dul h2 ("^" :: (print_math r ++ ")" :: rest)) with h1 | h1
        · left; simp [parse_math_expr, parse_term, parse_power, h1]
        · rcases Dpr h2 (")" :: rest) (by simp) with h2' | h2'
          · left; simp [parse_math_expr, parse_term, parse_power, h1, h2']
          · right
            have e1 : parse_power (h2 + 1)
                (print_math l ++ ("^" :: (print_math r ++ ")" :: rest))) =
                some (MathAst.pow l r, ")" :: rest) := by
              simp [parse_power, h1, h2']
            have e2 : parse_term (h2 + 1 + 1)
                (print_math l ++ ("^" :: (print_math r ++ ")" :: rest))) =
                some (MathAst.pow l r, ")" :: rest) := by
              simp [parse_term, e1, parse_term_tail_stop h2 (MathAst.pow l r) ")" rest
                (by decide) (by decide)]
            simp [parse_math_expr, e2, parse_math_expr_tail_stop (h2 + 1)
              (MathAst.pow l r) ")" rest (by decide) (by decide)]

/-- Success for the inner words of a printed `^` node. -/
lemma inner_expr_s_pow (l r : MathAst) (Bl Br : Nat)
    (Sul : ∀ f R, Bl ≤ f → parse_unary f (print_math l ++ R) = some (l, R))
    (Spr : ∀ f R, R.head? ≠ some "^" → Br ≤ f →
        parse_power f (print_math r ++ R) = some (r, R)) :
    ∀ f rest, Bl + Br + 3 ≤ f →
      parse_math_expr f (print_math l ++ ("^" :: (print_math r ++ ")" :: rest))) =
        some (MathAst.pow l r, ")" :: rest) := by
  intro f rest hf
  obtain ⟨k, rfl⟩ : ∃ k, f = k + 3 := ⟨f - 3, by omega⟩
  have h1 := Sul k ("^" :: (print_math r ++ ")" :: rest)) (by omega)
  have h2 := Spr k (")" :: rest) (by simp) (by omega)
  have e1 : parse_power (k + 1)
      (print_math l ++ ("^" :: (print_math r ++ ")" :: rest))) =
      some (MathAst.pow l r, ")" :: rest) := by
    simp [parse_power, h1, h2]
  have e2 : parse_term (k + 2)
      (print_math l ++ ("^" :: (print_math r ++ ")" :: rest))) =
      some (MathAst.pow l r, ")" :: rest) := by
    rw [show k + 2 = (k + 1) + 1 from rfl]
    simp [parse_term, e1, parse_term_tail_stop k (MathAst.pow l r) ")" rest
      (by decide) (by decide)]
  rw [show k + 3 = (k + 2) + 1 from rfl]
  simp [parse_math_expr, e2, parse_math_expr_tail_stop (k + 1)
    (MathAst.pow l r) ")" rest (by decide) (by decide)]

/-- Dichotomy for the inner words of a printed unary-minus node. -/
lemma inner_expr_d_neg (a : MathAst)
    (Dua : ∀ f R, parse_unary f (print_math a ++ R) = none ∨
        parse_unary f (print_math a ++ R) = some (a, R)) :
    ∀ f rest,
      parse_math_expr f ("-" :: (print_math a ++ ")" :: rest)) = none ∨
      parse_math_expr f ("-" :: (print_math a ++ ")" :: rest)) =
        some (MathAst.neg a, ")" :: rest) := by
  intro f rest
  cases f with
  | zero => left; simp [parse_math_expr]
  | succ g =>
    cases g with
    | zero => left; simp [parse_math_expr, parse_term]
    | succ h =>
      cases h with
      | zero => left; simp [parse_math_expr, parse_term, parse_power]
      | succ h2 =>
        cases h2 with
        | zero => left; simp [parse_math_expr, parse_term, parse_power, parse_unary]
        | succ h3 =>
          rcases Dua h3 (")" :: rest) with h1 | h1
          · left; simp [parse_math_expr, parse_term, parse_power, parse_unary, h1]
          · right
            have e0 : parse_unary (h3 + 1)
                ("-" :: (print_math a ++ ")" :: rest)) =
                some (MathAst.neg a, ")" :: rest) := by
              simp [parse_unary, h1]
            have e1 : parse_power (h3 + 1 + 1)
                ("-" :: (print_math a ++ ")" :: rest)) =
                some (MathAst.neg a, ")" :: rest) := by
              simp [parse_power, e0]
            have e2 : parse_term (h3 + 1 + 1 + 1)
                ("-" :: (print_math a ++ ")" :: rest)) =
                some (MathAst.neg a, ")" :: rest) := by
              simp [parse_term, e1, parse_term_tail_stop (h3 + 1) (MathAst.neg a) ")" rest
                (by decide) (by decide)]
            simp [parse_math_expr, e2, parse_math_expr_tail_stop (h3 + 1 + 1)
              (MathAst.neg a) ")" rest (by decide) (by decide)]

/-- Success for the inner words of a printed unary-minus node. -/
lemma inner_expr_s_neg (a : MathAst) (B : Nat)
    (Sua : ∀ f R, B ≤ f → parse_unary f (print_math a ++ R) = some (a, R)) :
    ∀ f rest, B + 4 ≤ f →
      parse_math_expr f ("-" :: (print_math a ++ ")" :: rest)) =
        some (MathAst.neg a, ")" :: rest) := by
  intro f rest hf
  obtain ⟨k, rfl⟩ : ∃ k, f = k + 4 := ⟨f - 4, by omega⟩
  have h1 := Sua k (")" :: rest) (by omega)
  have e0 : parse_unary (k + 1) ("-" :: (print_math a ++ ")" :: rest)) =
      some (MathAst.neg a, ")" :: rest) := by
    simp [parse_unary, h1]
  have e1 : parse_power (k + 2) ("-" :: (print_math a ++ ")" :: rest)) =
      some (MathAst.neg a, ")" :: rest) := by
    rw [show k + 2 = (k + 1) + 1 from rfl]
    simp [parse_power, e0]
  have e2 : parse_term (k + 3) ("-" :: (print_math a ++ ")" :: rest)) =
      some (MathAst.neg a, ")" :: rest) := by
    rw [show k + 3 = (k + 2) + 1 from rfl]
    simp [parse_term, e1, parse_term_tail_stop (k + 1) (MathAst.neg a) ")" rest
      (by decide) (by decide)]
  rw [show k + 4 = (k + 3) + 1 from rfl]
  simp [parse_math_expr, e2, parse_math_expr_tail_stop (k + 2)
    (MathAst.neg a) ")" rest (by decide) (by decide)]

/-- The primary parser on a printed math expression either fails (for lack
of fuel) or consumes exactly the printed words; with fuel `16 * msize m`
it always succeeds on a well-formed expression. -/
theorem math_primary_spec (m : MathAst) :
    (∀ f rest, parse_primary f (print_math m ++ rest) = none ∨
               parse_primary f (print_math m ++ rest) = some (m, rest)) ∧
    (wf_math m → ∀ f rest, 16 * msize m ≤ f →
               parse_primary f (print_math m ++ rest) = some (m, rest)) := by
  induction m with
  | num n =>
    have hd := nat_to_string_digit n
    constructor
    · intro f rest
      cases f with
      | zero => left; simp [parse_primary]
      | succ f =>
        right
        simp [print_math, parse_primary, digit_not_lparen hd, hd,
          string_to_nat_nat_to_string]
    · intro _ f rest hf
      obtain ⟨g, rfl⟩ : ∃ g, f = g + 1 := ⟨f - 1, by simp [msize] at hf; omega⟩
      simp [print_math, parse_primary, digit_not_lparen hd, hd,
        string_to_nat_nat_to_string]
  | prop p a =>
    have hw1 : nprop_word p ≠ "(" := by cases p <;> decide
    have hw2 : is_digit_word (nprop_word p) = false := by cases p <;> decide
    have hw3 : func_of_word (nprop_word p) = none := by cases p <;> decide
    have hw4 : nprop_of_word (nprop_word p) = some p := by cases p <;> decide
    constructor
    · intro f rest
      cases f with
      | zero => left; simp [parse_primary]
      | succ f =>
        by_cases hr : 1 ≤ a ∧ a ≤ 4
        · right
          simp [print_math, parse_primary, hw1, hw2, hw3, hw4, parse_arg,
            nat_to_string_digit a, string_to_nat_nat_to_string, hr.1, hr.2]
        · left
          simp [print_math, parse_primary, hw1, hw2, hw3, hw4, parse_arg,
            nat_to_string_digit a, string_to_nat_nat_to_string, hr]
    · intro hwf f rest hf
      obtain ⟨h1a, h2a⟩ : 1 ≤ a ∧ a ≤ 4 := hwf
      obtain ⟨g, rfl⟩ : ∃ g, f = g + 1 := ⟨f - 1, by simp [msize] at hf; omega⟩
      simp [print_math, parse_primary, hw1, hw2, hw3, hw4, parse_arg,
        nat_to_string_digit a, string_to_nat_nat_to_string, h1a, h2a]
  | fn fc a ih =>
    obtain ⟨Da, Sa⟩ := ih
    have hw1 : func_word fc ≠ "(" := by cases fc <;> decide
    have hw2 : is_digit_word (func_word fc) = false := by cases fc <;> decide
    have hw3 : func_of_word (func_word fc) = some fc := by cases fc <;> decide
    have hld := math_lift_d a Da
    constructor
    · intro f rest
      cases f with
      | zero => left; simp [parse_primary]
      | succ f =>
        rcases hld.2.2.2 f (")" :: rest) (by simp) (by simp) (by simp)
            (by simp) (by simp) with h | h
        · left
          simp [print_math, parse_primary, hw1, hw2, hw3, h]
        · right
          simp [print_math, parse_primary, hw1, hw2, hw3, h]
    · intro hwf f rest hf
      have hls := math_lift_s a (16 * msize a) (Sa hwf)
      obtain ⟨g, rfl⟩ : ∃ g, f = g + 1 := ⟨f - 1, by simp [msize] at hf; omega⟩
      have hS := hls.2.2.2 g (")" :: rest) (by simp) (by simp) (by simp)
        (by simp) (by simp) (by simp [msize] at hf; omega)
      simp [print_math, parse_primary, hw1, hw2, hw3, hS]
  | add l r ihl ihr =>
    obtain ⟨Dl, Sl⟩ := ihl
    obtain ⟨Dr, Sr⟩ := ihr
    have hstep : ∀ h accv R, parse_math_expr_tail (h + 1) accv ("+" :: R) =
        (match parse_term h R with
         | some (b, r2) => parse_math_expr_tail h (MathAst.add accv b) r2
         | none => none) := by
      intro h accv R
      cases ht : parse_term h R with
      | none => simp [parse_math_expr_tail, ht]
      | some x => cases x; simp [parse_math_expr_tail, ht]
    have hinput : ∀ rest : List String, print_math (MathAst.add l r) ++ rest =
        "(" :: (print_math l ++ ("+" :: (print_math r ++ ")" :: rest))) := by
      intro rest; simp [print_math]
    constructor
    · intro f rest
      have hinner := inner_expr_d_addsub l r "+" MathAst.add hstep
        (math_lift_d l Dl).2.2.1 (math_lift_d r Dr).2.2.1
        (by decide) (by decide) (by decide)
      rw [hinput rest]
      exact primary_paren_d (MathAst.add l r) _ rest (fun g => hinner g rest) f
    · intro hwf f rest hf
      simp [msize] at hf
      have hinner := inner_expr_s_addsub l r "+" MathAst.add
        (16 * msize l + 4) (16 * msize r + 4) hstep
        (math_lift_s l (16 * msize l) (Sl hwf.1)).2.2.1
        (math_lift_s r (16 * msize r) (Sr hwf.2)).2.2.1
        (by decide) (by decide) (by decide)
      rw [hinput rest]
      exact primary_paren_s (MathAst.add l r) _ rest _
        (fun g hg => hinner g rest hg) f (by omega)
  | sub l r ihl ihr =>
    obtain ⟨Dl, Sl⟩ := ihl
    obtain ⟨Dr, Sr⟩ := ihr
    have hstep : ∀ h accv R, parse_math_expr_tail (h + 1) accv ("-" :: R) =
        (match parse_term h R with
         | some (b, r2) => parse_math_expr_tail h (MathAst.sub accv b) r2
         | none => none) := by
      intro h accv R
      cases ht : parse_term h R with
      | none => simp [parse_math_expr_tail, ht]
      | some x => cases x; simp [parse_math_expr_tail, ht]
    have hinput : ∀ rest : List String, print_math (MathAst.sub l r) ++ rest =
        "(" :: (print_math l ++ ("-" :: (print_math r ++ ")" :: rest))) := by
      intro rest; simp [print_math]
    constructor
    · intro f rest
      have hinner := inner_expr_d_addsub l r "-" MathAst.sub hstep
        (math_lift_d l Dl).2.2.1 (math_lift_d r Dr).2.2.1
        (by decide) (by decide) (by decide)
      rw [hinput rest]
      exact primary_paren_d (MathAst.sub l r) _ rest (fun g => hinner g rest) f
    · intro hwf f rest hf
      simp [msize] at hf
      have hinner := inner_expr_s_addsub l r "-" MathAst.sub
        (16 * msize l + 4) (16 * msize r + 4) hstep
        (math_lift_s l (16 * msize l) (Sl hwf.1)).2.2.1
        (math_lift_s r (16 * msize r) (Sr hwf.2)).2.2.1
        (by decide) (by decide) (by decide)
      rw [hinput rest]
      exact primary_paren_s (MathAst.sub l r) _ rest _
        (fun g hg => hinner g rest hg) f (by omega)
  | mul l r ihl ihr =>
    obtain ⟨Dl, Sl⟩ := ihl
    obtain ⟨Dr, Sr⟩ := ihr
    have hstep : ∀ h accv R, parse_term_tail (h + 1) accv ("*" :: R) =
        (match parse_power h R with
         | some (b, r2) => parse_term_tail h (MathAst.mul accv b) r2
         | none => none) := by
      intro h accv R
      cases ht : parse_power h R with
      | none => simp [parse_term_tail, ht]
      | some x => cases x; simp [parse_term_tail, ht]
    have hinput : ∀ rest : List String, print_math (MathAst.mul l r) ++ rest =
        "(" :: (print_math l ++ ("*" :: (print_math r ++ ")" :: rest))) := by
      intro rest; simp [print_math]
    constructor
    · intro f rest
      have hinner := inner_expr_d_muldiv l r "*" MathAst.mul hstep
        (math_lift_d l Dl).2.1 (math_lift_d r Dr).2.1
        (by decide) (by decide) (by decide)
      rw [hinput rest]
      exact primary_paren_d (MathAst.mul l r) _ rest (fun g => hinner g rest) f
    · intro hwf f rest hf
      simp [msize] at hf
      have hinner := inner_expr_s_muldiv l r "*" MathAst.mul
        (16 * msize l + 2) (16 * msize r + 2) hstep
        (math_lift_s l (16 * msize l) (Sl hwf.1)).2.1
        (math_lift_s r (16 * msize r) (Sr hwf.2)).2.1
        (by decide) (by decide) (by decide)
      rw [hinput rest]
      exact primary_paren_s (MathAst.mul l r) _ rest _
        (fun g hg => hinner g rest hg) f (by omega)
  | div l r ihl ihr =>
    obtain ⟨Dl, Sl⟩ := ihl
    obtain ⟨Dr, Sr⟩ := ihr
    have hstep : ∀ h accv R, parse_term_tail (h + 1) accv ("/" :: R) =
        (match parse_power h R with
         | some (b, r2) => parse_term_tail h (MathAst.div accv b) r2
         | none => none) := by
      intro h accv R
      cases ht : parse_power h R with
      | none => simp [parse_term_tail, ht]
      | some x => cases x; simp [parse_term_tail, ht]
    have hinput : ∀ rest : List String, print_math (MathAst.div l r) ++ rest =
        "(" :: (print_math l ++ ("/" :: (print_math r ++ ")" :: rest))) := by
      intro rest; simp [print_math]
    constructor
    · intro f rest
      have hinner := inner_expr_d_muldiv l r "/" MathAst.div hstep
        (math_lift_d l Dl).2.1 (math_lift_d r Dr).2.1
        (by decide) (by decide) (by decide)
      rw [hinput rest]
      exact primary_paren_d (MathAst.div l r) _ rest (fun g => hinner g rest) f
    · intro hwf f rest hf
      simp [msize] at hf
      have hinner := inner_expr_s_muldiv l r "/" MathAst.div
        (16 * msize l + 2) (16 * msize r + 2) hstep
        (math_lift_s l (16 * msize l) (Sl hwf.1)).2.1
        (math_lift_s r (16 * msize r) (Sr hwf.2)).2.1
        (by decide) (by decide) (by decide)
      rw [hinput rest]
      exact primary_paren_s (MathAst.div l r) _ rest _
        (fun g hg => hinner g rest hg) f (by omega)
  | pow l r ihl ihr =>
    obtain ⟨Dl, Sl⟩ := ihl
    obtain ⟨Dr, Sr⟩ := ihr
    have hinput : ∀ rest : List String, print_math (MathAst.pow l r) ++ rest =
        "(" :: (print_math l ++ ("^" :: (print_math r ++ ")" :: rest))) := by
      intro rest; simp [print_math]
    constructor
    · intro f rest
      have hinner := inner_expr_d_pow l r
        (math_lift_d l Dl).1 (math_lift_d r Dr).2.1
      rw [hinput rest]
      exact primary_paren_d (MathAst.pow l r) _ rest (fun g => hinner g rest) f
    · intro hwf f rest hf
      simp [msize] at hf
      have hinner := inner_expr_s_pow l r
        (16 * msize l + 1) (16 * msize r + 2)
        (math_lift_s l (16 * msize l) (Sl hwf.1)).1
        (math_lift_s r (16 * msize r) (Sr hwf.2)).2.1
      rw [hinput rest]
      exact primary_paren_s (MathAst.pow l r) _ rest _
        (fun g hg => hinner g rest hg) f (by omega)
  | neg a ih =>
    obtain ⟨Da, Sa⟩ := ih
    have hinput : ∀ rest : List String, print_math (MathAst.neg a) ++ rest =
        "(" :: ("-" :: (print_math a ++ ")" :: rest)) := by
      intro rest; simp [print_math]
    constructor
    · intro f rest
      have hinner := inner_expr_d_neg a (math_lift_d a Da).1
      rw [hinput rest]
      exact primary_paren_d (MathAst.neg a) _ rest (fun g => hinner g rest) f
    · intro hwf f rest hf
      simp [msize] at hf
      have hinner := inner_expr_s_neg a (16 * msize a + 1)
        (math_lift_s a (16 * msize a) (Sa hwf)).1
      rw [hinput rest]
      exact primary_paren_s (MathAst.neg a) _ rest _
        (fun g hg => hinner g rest hg) f (by omega)

/-- Is this boolean AST node a math comparison? -/
def isMathB : BAst → Bool
  | .math _ _ _ => true
  | _ => false

lemma word_primary_none (w : String) (hw1 : w ≠ "(") (hw2 : is_digit_word w = false)
    (hw3 : func_of_word w = none) (hw4 : nprop_of_word w = none) :
    ∀ f rest, parse_primary f (w :: rest) = none := by
  intro f rest
  cases f with
  | zero => simp [parse_primary]
  | succ f => simp [parse_primary, hw1, hw2, hw3, hw4]

lemma paren_primary_none (X : List String)
    (hX : ∀ f, parse_math_expr f X = none) :
    ∀ f, parse_primary f ("(" :: X) = none := by
  intro f
  cases f with
  | zero => simp [parse_primary]
  | succ f => simp [parse_primary, hX f]

lemma word_expr_none (w : String) (hw0 : w ≠ "-") (hw1 : w ≠ "(")
    (hw2 : is_digit_word w = false) (hw3 : func_of_word w = none)
    (hw4 : nprop_of_word w = none) :
    ∀ f rest, parse_math_expr f (w :: rest) = none := by
  intro f rest
  exact (math_none_chain (w :: rest) (by simp [hw0])
    (fun g => word_primary_none w hw1 hw2 hw3 hw4 g rest)).2.2.2.1 f

/-- A printed non-math boolean selector never parses as a math expression,
and a printed boolean selector wrapped in an extra `(` never parses as a
math primary. -/
lemma bool_fail_spec (b : BAst) : ∀ rest : List String,
    ((isMathB b = false → ∀ f, parse_math_expr f (print_bool b ++ rest) = none) ∧
     (∀ f, parse_primary f ("(" :: (print_bool b ++ rest)) = none)) := by
  induction b with
  | all =>
    intro rest
    have hA : ∀ f, parse_math_expr f (print_bool BAst.all ++ rest) = none := by
      intro f
      simp only [print_bool, List.cons_append, List.nil_append]
      exact word_expr_none "all" (by decide) (by decide) (by decide) (by decide)
        (by decide) f rest
    exact ⟨fun _ => hA, paren_primary_none _ hA⟩
  | none_ =>
    intro rest
    have hA : ∀ f, parse_math_expr f (print_bool BAst.none_ ++ rest) = none := by
      intro f
      simp only [print_bool, List.cons_append, List.nil_append]
      exact word_expr_none "none" (by decide) (by decide) (by decide) (by decide)
        (by decide) f rest
    exact ⟨fun _ => hA, paren_primary_none _ hA⟩
  | not_ a ih =>
    intro rest
    have hA : ∀ f, parse_math_expr f (print_bool (BAst.not_ a) ++ rest) = none := by
      intro f
      simp only [print_bool, List.cons_append]
      exact word_expr_none "not" (by decide) (by decide) (by decide) (by decide)
        (by decide) f (print_bool a ++ rest)
    exact ⟨fun _ => hA, paren_primary_none _ hA⟩
  | str p eq arg v =>
    intro rest
    have hA : ∀ f, parse_math_expr f (print_bool (BAst.str p eq arg v) ++ rest) = none := by
      intro f
      simp only [print_bool, List.cons_append]
      exact word_expr_none (sprop_word p) (by cases p <;> decide) (by cases p <;> decide)
        (by cases p <;> decide) (by cases p <;> decide) (by cases p <;> decide) f _
    exact ⟨fun _ => hA, paren_primary_none _ hA⟩
  | math op l r =>
    intro rest
    constructor
    · intro h; simp [isMathB] at h
    · intro f
      cases f with
      | zero => simp [parse_primary]
      | succ f =>
        have hD := (math_lift_d l (math_primary_spec l).1).2.2.2 f
          (cmp_word op :: (print_math r ++ rest))
          (by rw [List.head?_cons]; cases op <;> decide)
          (by rw [List.head?_cons]; cases op <;> decide)
          (by rw [List.head?_cons]; cases op <;> decide)
          (by rw [List.head?_cons]; cases op <;> decide)
          (by rw [List.head?_cons]; cases op <;> decide)
        have hinput : print_bool (BAst.math op l r) ++ rest =
            print_math l ++ (cmp_word op :: (print_math r ++ rest)) := by
          simp [print_bool]
        rw [hinput]
        rcases hD with h | h
        · simp [parse_primary, h]
        · simp [parse_primary, h, show cmp_word op ≠ ")" from by cases op <;> decide]
  | and_ l r ihl ihr =>
    intro rest
    have hA : ∀ f, parse_math_expr f (print_bool (BAst.and_ l r) ++ rest) = none := by
      intro f
      have hB := (ihl ("and" :: (print_bool r ++ ")" :: rest))).2
      have hinput : print_bool (BAst.and_ l r) ++ rest =
          "(" :: (print_bool l ++ ("and" :: (print_bool r ++ ")" :: rest))) := by
        simp [print_bool]
      rw [hinput]
      exact (math_none_chain _ (by simp) hB).2.2.2.1 f
    exact ⟨fun _ => hA, paren_primary_none _ hA⟩
  | or_ l r ihl ihr =>
    intro rest
    have hA : ∀ f, parse_math_expr f (print_bool (BAst.or_ l r) ++ rest) = none := by
      intro f
      have hB := (ihl ("or" :: (print_bool r ++ ")" :: rest))).2
      have hinput : print_bool (BAst.or_ l r) ++ rest =
          "(" :: (print_bool l ++ ("or" :: (print_bool r ++ ")" :: rest))) := by
        simp [print_bool]
      rw [hinput]
      exact (math_none_chain _ (by simp) hB).2.2.2.1 f
    exact ⟨fun _ => hA, paren_primary_none _ hA⟩

/-- The boolean parser, given enough fuel, consumes exactly the printed
words of a well-formed boolean AST and returns that AST. -/
theorem bool_parse_success (b : BAst) : wf_bool b → ∀ f (rest : List String),
    rest.head? ≠ some "^" → rest.head? ≠ some "*" → rest.head? ≠ some "/" →
    rest.head? ≠ some "+" → rest.head? ≠ some "-" →
    16 * bsize b + 8 ≤ f →
    parse_not f (print_bool b ++ rest) = some (b, rest) := by
  induction b with
  | all =>
    intro _ f rest _ _ _ _ _ hf
    obtain ⟨g, rfl⟩ : ∃ g, f = g + 1 + 1 := ⟨f - 2, by omega⟩
    simp [print_bool, parse_not, parse_atom]
  | none_ =>
    intro _ f rest _ _ _ _ _ hf
    obtain ⟨g, rfl⟩ : ∃ g, f = g + 1 + 1 := ⟨f - 2, by omega⟩
    simp [print_bool, parse_not, parse_atom]
  | not_ a ih =>
    intro hwf f rest h1 h2 h3 h4 h5 hf
    simp only [bsize] at hf
    obtain ⟨g, rfl⟩ : ∃ g, f = g + 1 := ⟨f - 1, by omega⟩
    have hna := ih hwf g rest h1 h2 h3 h4 h5 (by omega)
    simp [print_bool, parse_not, hna]
  | str p eq arg v =>
    intro hwf f rest _ _ _ _ _ hf
    obtain ⟨⟨ha1, ha2⟩, hid⟩ := hwf
    obtain ⟨g, rfl⟩ : ∃ g, f = g + 1 + 1 := ⟨f - 2, by omega⟩
    have hp1 : sprop_word p ≠ "not" := by cases p <;> decide
    have hp2 : sprop_word p ≠ "all" := by cases p <;> decide
    have hp3 : sprop_word p ≠ "none" := by cases p <;> decide
    have hp4 : sprop_of_word (sprop_word p) = some p := by cases p <;> decide
    cases eq with
    | true =>
      simp [print_bool, parse_not, parse_atom, hp1, hp2, hp3, hp4,
        parse_string_sel, parse_arg, nat_to_string_digit arg,
        string_to_nat_nat_to_string, ha1, ha2, hid]
    | false =>
      simp [print_bool, parse_not, parse_atom, hp1, hp2, hp3, hp4,
        parse_string_sel, parse_arg, nat_to_string_digit arg,
        string_to_nat_nat_to_string, ha1, ha2, hid]
  | math op l r =>
    intro hwf f rest h1 h2 h3 h4 h5 hf
    obtain ⟨hwl, hwr⟩ := hwf
    simp only [bsize] at hf
    obtain ⟨g, rfl⟩ : ∃ g, f = g + 1 + 1 + 1 := ⟨f - 3, by omega⟩
    have hexprl := (math_lift_s l (16 * msize l) ((math_primary_spec l).2 hwl)).2.2.2
      g (cmp_word op :: (print_math r ++ rest))
      (by rw [List.head?_cons]; cases op <;> decide)
      (by rw [List.head?_cons]; cases op <;> decide)
      (by rw [List.head?_cons]; cases op <;> decide)
      (by rw [List.head?_cons]; cases op <;> decide)
      (by rw [List.head?_cons]; cases op <;> decide)
      (by omega)
    have hexprr := (math_lift_s r (16 * msize r) ((math_primary_spec r).2 hwr)).2.2.2
      g rest h1 h2 h3 h4 h5 (by omega)
    have hcw : cmp_of_word (cmp_word op) = some op := by cases op <;> decide
    have hsel : parse_math_sel (g + 1)
        (print_math l ++ (cmp_word op :: (print_math r ++ rest))) =
        some (BAst.math op l r, rest) := by
      simp [parse_math_sel, hexprl, hcw, hexprr]
    obtain ⟨w, tws, hpm⟩ : ∃ w tws, print_math l = w :: tws := by
      cases hh : print_math l with
      | nil => exact absurd hh (print_math_ne_nil l)
      | cons w tws => exact ⟨w, tws, rfl⟩
    have hw := print_math_head_facts l w tws hpm
    have hinput : print_bool (BAst.math op l r) ++ rest =
        print_math l ++ (cmp_word op :: (print_math r ++ rest)) := by
      simp [print_bool]
    rw [hinput, hpm, List.cons_append]
    rw [hpm, List.cons_append] at hsel
    simp [parse_not, parse_atom, hw.2.1, hw.2.2.1, hw.2.2.2.1, hw.2.2.2.2.1, hsel]
  | and_ l r ihl ihr =>
    intro hwf f rest h1 h2 h3 h4 h5 hf
    simp only [bsize] at hf
    obtain ⟨g, rfl⟩ : ∃ g, f = g + 1 + 1 + 1 + 1 + 1 + 1 := ⟨f - 6, by omega⟩
    have hnl := ihl hwf.1 (g + 1 + 1) ("and" :: (print_bool r ++ ")" :: rest))
      (by rw [List.head?_cons]; decide) (by rw [List.head?_cons]; decide)
      (by rw [List.head?_cons]; decide) (by rw [List.head?_cons]; decide)
      (by rw [List.head?_cons]; decide) (by omega)
    have hnr := ihr hwf.2 (g + 1) (")" :: rest)
      (by rw [List.head?_cons]; decide) (by rw [List.head?_cons]; decide)
      (by rw [List.head?_cons]; decide) (by rw [List.head?_cons]; decide)
      (by rw [List.head?_cons]; decide) (by omega)
    have hand : parse_and (g + 1 + 1 + 1)
        (print_bool l ++ ("and" :: (print_bool r ++ ")" :: rest))) =
        some (BAst.and_ l r, ")" :: rest) := by
      simp [parse_and, hnl, parse_and_tail, hnr]
    have hor : parse_or (g + 1 + 1 + 1 + 1)
        (print_bool l ++ ("and" :: (print_bool r ++ ")" :: rest))) =
        some (BAst.and_ l r, ")" :: rest) := by
      simp [parse_or, hand, parse_or_tail]
    have hpn := (bool_fail_spec l ("and" :: (print_bool r ++ ")" :: rest))).2
    have hsel : parse_math_sel (g + 1 + 1 + 1 + 1)
        ("(" :: (print_bool l ++ ("and" :: (print_bool r ++ ")" :: rest)))) = none :=
      (math_none_chain _ (by simp) hpn).2.2.2.2 _
    have hinput : print_bool (BAst.and_ l r) ++ rest =
        "(" :: (print_bool l ++ ("and" :: (print_bool r ++ ")" :: rest))) := by
      simp [print_bool]
    rw [hinput]
    simp [parse_not, parse_atom, sprop_of_word, hsel, hor]
  | or_ l r ihl ihr =>
    intro hwf f rest h1 h2 h3 h4 h5 hf
    simp only [bsize] at hf
    obtain ⟨g, rfl⟩ : ∃ g, f = g + 1 + 1 + 1 + 1 + 1 + 1 := ⟨f - 6, by omega⟩
    have hnl := ihl hwf.1 (g + 1 + 1) ("or" :: (print_bool r ++ ")" :: rest))
      (by rw [List.head?_cons]; decide) (by rw [List.head?_cons]; decide)
      (by rw [List.head?_cons]; decide) (by rw [List.head?_cons]; decide)
      (by rw [List.head?_cons]; decide) (by omega)
    have hnr := ihr hwf.2 (g + 1) (")" :: rest)
      (by rw [List.head?_cons]; decide) (by rw [List.head?_cons]; decide)
      (by rw [List.head?_cons]; decide) (by rw [List.head?_cons]; decide)
      (by rw [List.head?_cons]; decide) (by omega)
    have hand : parse_and (g + 1 + 1 + 1)
        (print_bool l ++ ("or" :: (print_bool r ++ ")" :: rest))) =
        some (l, "or" :: (print_bool r ++ ")" :: rest)) := by
      simp [parse_and, hnl, parse_and_tail]
    have hand2 : parse_and (g + 1 + 1)
        (print_bool r ++ ")" :: rest) = some (r, ")" :: rest) := by
      simp [parse_and, hnr, parse_and_tail]
    have hor : parse_or (g + 1 + 1 + 1 + 1)
        (print_bool l ++ ("or" :: (print_bool r ++ ")" :: rest))) =
        some (BAst.or_ l r, ")" :: rest) := by
      simp [parse_or, hand, parse_or_tail, hand2]
    have hpn := (bool_fail_spec l ("or" :: (print_bool r ++ ")" :: rest))).2
    have hsel : parse_math_sel (g + 1 + 1 + 1 + 1)
        ("(" :: (print_bool l ++ ("or" :: (print_bool r ++ ")" :: rest)))) = none :=
      (math_none_chain _ (by simp) hpn).2.2.2.2 _
    have hinput : print_bool (BAst.or_ l r) ++ rest =
        "(" :: (print_bool l ++ ("or" :: (print_bool r ++ ")" :: rest))) := by
      simp [print_bool]
    rw [hinput]
    simp [parse_not, parse_atom, sprop_of_word, hsel, hor]

/-- `parse_arg` only returns arguments in `{1,2,3,4}`. -/
lemma parse_arg_range (ws : List String) (a : Nat) (r : List String)
    (h : parse_arg ws = some (a, r)) : 1 ≤ a ∧ a ≤ 4 := by
  unfold parse_arg at h
  split at h
  · split at h
    · split at h
      · split at h
        · obtain rfl := (Prod.mk.injEq _ _ _ _ ▸ Option.some.inj h).1
          omega
        · cases h
      · cases h
    · obtain rfl := (Prod.mk.injEq _ _ _ _ ▸ Option.some.inj h).1
      omega
  · obtain rfl := (Prod.mk.injEq _ _ _ _ ▸ Option.some.inj h).1
    omega

/-- `parse_string_sel` only returns well-formed string selectors. -/
lemma parse_string_sel_wf (p : SProp) (ws : List String) (out : BAst × List String)
    (h : parse_string_sel p ws = some out) : wf_bool out.1 := by
  unfold parse_string_sel at h
  split at h
  case h_2 => cases h
  case h_1 arg r hpa =>
    have hrange := parse_arg_range ws arg r hpa
    split at h
    case h_2 => cases h
    case h_1 cw vw rest =>
      split at h
      · split at h
        case isTrue hid =>
          obtain rfl := Option.some.inj h
          exact ⟨hrange, hid⟩
        case isFalse => cases h
      · split at h
        · split at h
          case isTrue hid =>
            obtain rfl := Option.some.inj h
            exact ⟨hrange, hid⟩
          case isFalse => cases h
        · cases h

/-- All selection parsers return well-formed ASTs. -/
theorem parse_wf_bundle : ∀ f : Nat,
    (∀ ws out, parse_or f ws = some out → wf_bool out.1) ∧
    (∀ acc ws out, wf_bool acc → parse_or_tail f acc ws = some out → wf_bool out.1) ∧
    (∀ ws out, parse_and f ws = some out → wf_bool out.1) ∧
    (∀ acc ws out, wf_bool acc → parse_and_tail f acc ws = some out → wf_bool out.1) ∧
    (∀ ws out, parse_not f ws = some out → wf_bool out.1) ∧
    (∀ ws out, parse_atom f ws = some out → wf_bool out.1) ∧
    (∀ ws out, parse_math_sel f ws = some out → wf_bool out.1) ∧
    (∀ ws out, parse_math_expr f ws = some out → wf_math out.1) ∧
    (∀ acc ws out, wf_math acc → parse_math_expr_tail f acc ws = some out → wf_math out.1) ∧
    (∀ ws out, parse_term f ws = some out → wf_math out.1) ∧
    (∀ acc ws out, wf_math acc → parse_term_tail f acc ws = some out → wf_math out.1) ∧
    (∀ ws out, parse_power f ws = some out → wf_math out.1) ∧
    (∀ ws out, parse_unary f ws = some out → wf_math out.1) ∧
    (∀ ws out, parse_primary f ws = some out → wf_math out.1) := by
  intro f
  induction f with
  | zero =>
    refine ⟨?_, ?_, ?_, ?_, ?_, ?_, ?_, ?_, ?_, ?_, ?_, ?_, ?_, ?_⟩ <;>
      intros <;> simp [parse_or, parse_or_tail, parse_and, parse_and_tail,
        parse_not, parse_atom, parse_math_sel, parse_math_expr,
        parse_math_expr_tail, parse_term, parse_term_tail, parse_power,
        parse_unary, parse_primary] at *
  | succ f ih =>
    obtain ⟨ihOr, ihOrT, ihAnd, ihAndT, ihNot, ihAtom, ihSel, ihExpr, ihExprT,
      ihTerm, ihTermT, ihPow, ihUn, ihPrim⟩ := ih
    have hAnd : ∀ ws out, parse_and (f + 1) ws = some out → wf_bool out.1 := by
      intro ws out h
      simp only [parse_and] at h
      split at h
      case h_1 a r ha => exact ihAndT a r out (ihNot ws (a, r) ha) h
      case h_2 => cases h
    have hOr : ∀ ws out, parse_or (f + 1) ws = some out → wf_bool out.1 := by
      intro ws out h
      simp only [parse_or] at h
      split at h
      case h_1 a r ha => exact ihOrT a r out (ihAnd ws (a, r) ha) h
      case h_2 => cases h
    have hOrT : ∀ acc ws out, wf_bool acc → parse_or_tail (f + 1) acc ws = some out →
        wf_bool out.1 := by
      intro acc ws out hacc h
      simp only [parse_or_tail] at h
      split at h
      case h_2 => obtain rfl := Option.some.inj h; exact hacc
      case h_1 w rest =>
        split at h
        · split at h
          case h_1 b r hb =>
            exact ihOrT (BAst.or_ acc b) r out ⟨hacc, ihAnd rest (b, r) hb⟩ h
          case h_2 => cases h
        · obtain rfl := Option.some.inj h; exact hacc
    have hAndT : ∀ acc ws out, wf_bool acc → parse_and_tail (f + 1) acc ws = some out →
        wf_bool out.1 := by
      intro acc ws out hacc h
      simp only [parse_and_tail] at h
      split at h
      case h_2 => obtain rfl := Option.some.inj h; exact hacc
      case h_1 w rest =>
        split at h
        · split at h
          case h_1 b r hb =>
            exact ihAndT (BAst.and_ acc b) r out ⟨hacc, ihNot rest (b, r) hb⟩ h
          case h_2 => cases h
        · obtain rfl := Option.some.inj h; exact hacc
    have hNot : ∀ ws out, parse_not (f + 1) ws = some out → wf_bool out.1 := by
      intro ws out h
      simp only [parse_not] at h
      split at h
      case h_2 => cases h
      case h_1 w rest =>
        split at h
        · split at h
          case h_1 a r ha => obtain rfl := Option.some.inj h; exact ihNot rest (a, r) ha
          case h_2 => cases h
        · exact ihAtom _ out h
    have hSel : ∀ ws out, parse_math_sel (f + 1) ws = some out → wf_bool out.1 := by
      intro ws out h
      simp only [parse_math_sel] at h
      split at h
      case h_2 => cases h
      case h_1 m1 cw rest he1 =>
        split at h
        case h_2 => cases h
        case h_1 op hop =>
          split at h
          case h_1 m2 r2 he2 =>
            obtain rfl := Option.some.inj h
            exact ⟨ihExpr ws (m1, cw :: rest) he1, ihExpr rest (m2, r2) he2⟩
          case h_2 => cases h
    have hAtom : ∀ ws out, parse_atom (f + 1) ws = some out → wf_bool out.1 := by
      intro ws out h
      simp only [parse_atom] at h
      split at h
      case h_2 => cases h
      case h_1 w r =>
        split at h
        · obtain rfl := Option.some.inj h; exact trivial
        · split at h
          · obtain rfl := Option.some.inj h; exact trivial
          · split at h
            case h_1 p hp => exact parse_string_sel_wf p r out h
            case h_2 hp =>
              split at h
              case h_1 res hres => obtain rfl := Option.some.inj h; exact ihSel _ res hres
              case h_2 hres =>
                split at h
                · split at h
                  case h_1 b w2 r3 hb =>
                    split at h
                    · obtain rfl := Option.some.inj h; exact ihOr r (b, w2 :: r3) hb
                    · cases h
                  case h_2 => cases h
                · cases h
    have hExpr : ∀ ws out, parse_math_expr (f + 1) ws = some out → wf_math out.1 := by
      intro ws out h
      simp only [parse_math_expr] at h
      split at h
      case h_1 a r ha => exact ihExprT a r out (ihTerm ws (a, r) ha) h
      case h_2 => cases h
    have hExprT : ∀ acc ws out, wf_math acc →
        parse_math_expr_tail (f + 1) acc ws = some out → wf_math out.1 := by
      intro acc ws out hacc h
      simp only [parse_math_expr_tail] at h
      split at h
      case h_2 => obtain rfl := Option.some.inj h; exact hacc
      case h_1 w rest =>
        split at h
        · split at h
          case h_1 b r hb =>
            exact ihExprT (MathAst.add acc b) r out ⟨hacc, ihTerm rest (b, r) hb⟩ h
          case h_2 => cases h
        · split at h
          · split at h
            case h_1 b r hb =>
              exact ihExprT (MathAst.sub acc b) r out ⟨hacc, ihTerm rest (b, r) hb⟩ h
            case h_2 => cases h
          · obtain rfl := Option.some.inj h; exact hacc
    have hTerm : ∀ ws out, parse_term (f + 1) ws = some out → wf_math out.1 := by
      intro ws out h
      simp only [parse_term] at h
      split at h
      case h_1 a r ha => exact ihTermT a r out (ihPow ws (a, r) ha) h
      case h_2 => cases h
    have hTermT : ∀ acc ws out, wf_math acc →
        parse_term_tail (f + 1) acc ws = some out → wf_math out.1 := by
      intro acc ws out hacc h
      simp only [parse_term_tail] at h
      split at h
      case h_2 => obtain rfl := Option.some.inj h; exact hacc
      case h_1 w rest =>
        split at h
        · split at h
          case h_1 b r hb =>
            exact ihTermT (MathAst.mul acc b) r out ⟨hacc, ihPow rest (b, r) hb⟩ h
          case h_2 => cases h
        · split at h
          · split at h
            case h_1 b r hb =>
              exact ihTermT (MathAst.div acc b) r out ⟨hacc, ihPow rest (b, r) hb⟩ h
            case h_2 => cases h
          · obtain rfl := Option.some.inj h; exact hacc
    have hPow : ∀ ws out, parse_power (f + 1) ws = some out → wf_math out.1 := by
      intro ws out h
      simp only [parse_power] at h
      split at h
      case h_2 => cases h
      case h_1 u r hu =>
        split at h
        case h_2 => obtain rfl := Option.some.inj h; exact ihUn ws (u, []) hu
        case h_1 w rest =>
          split at h
          · split at h
            case h_1 p r2 hp =>
              obtain rfl := Option.some.inj h
              exact ⟨ihUn ws (u, w :: rest) hu, ihPow rest (p, r2) hp⟩
            case h_2 => cases h
          · obtain rfl := Option.some.inj h; exact ihUn ws (u, w :: rest) hu
    have hUn : ∀ ws out, parse_unary (f + 1) ws = some out → wf_math out.1 := by
      intro ws out h
      simp only [parse_unary] at h
      split at h
      case h_2 => cases h
      case h_1 w rest =>
        split at h
        · split at h
          case h_1 a r ha => obtain rfl := Option.some.inj h; exact ihUn rest (a, r) ha
          case h_2 => cases h
        · exact ihPrim _ out h
    have hPrim : ∀ ws out, parse_primary (f + 1) ws = some out → wf_math out.1 := by
      intro ws out h
      simp only [parse_primary] at h
      split at h
      case h_2 => cases h
      case h_1 w r =>
        split at h
        · split at h
          case h_1 m w2 r3 he =>
            split at h
            · obtain rfl := Option.some.inj h; exact ihExpr r (m, w2 :: r3) he
            · cases h
          case h_2 => cases h
        · split at h
          · obtain rfl := Option.some.inj h; exact trivial
          · split at h
            case h_1 fc hfc =>
              split at h
              case h_2 => cases h
              case h_1 w2 r2 =>
                split at h
                · split at h
                  case h_1 m w3 r4 he =>
                    split at h
                    · obtain rfl := Option.some.inj h; exact ihExpr r2 (m, w3 :: r4) he
                    · cases h
                  case h_2 => cases h
                · cases h
            case h_2 hfc =>
              split at h
              case h_2 => cases h
              case h_1 p hp =>
                split at h
                case h_1 arg r2 hpa =>
                  obtain rfl := Option.some.inj h
                  exact parse_arg_range r arg r2 hpa
                case h_2 => cases h
    exact ⟨hOr, hOrT, hAnd, hAndT, hNot, hAtom, hSel, hExpr, hExprT,
      hTerm, hTermT, hPow, hUn, hPrim⟩

lemma msize_le_print_length (m : MathAst) : msize m ≤ (print_math m).length := by
  induction m <;> simp [print_math, msize, List.length_append] <;> omega

lemma bsize_le_print_length (b : BAst) : bsize b ≤ (print_bool b).length := by
  induction b with
  | math op l r =>
    have h1 := msize_le_print_length l
    have h2 := msize_le_print_length r
    simp [print_bool, bsize, List.length_append]
    omega
  | and_ l r ihl ihr => simp [print_bool, bsize, List.length_append]; omega
  | or_ l r ihl ihr => simp [print_bool, bsize, List.length_append]; omega
  | not_ a ih => simp [print_bool, bsize]; omega
  | all => simp [print_bool, bsize]
  | none_ => simp [print_bool, bsize]
  | str p eq arg v => simp [print_bool, bsize]

/-- The whole-expression parser consumes exactly the printed words of a
well-formed boolean AST. -/
lemma parse_or_success (b : BAst) (hwf : wf_bool b) (f : Nat) (rest : List String)
    (h1 : rest.head? ≠ some "^") (h2 : rest.head? ≠ some "*") (h3 : rest.head? ≠ some "/")
    (h4 : rest.head? ≠ some "+") (h5 : rest.head? ≠ some "-")
    (h6 : rest.head? ≠ some "and") (h7 : rest.head? ≠ some "or")
    (hf : 16 * bsize b + 11 ≤ f) :
    parse_or f (print_bool b ++ rest) = some (b, rest) := by
  obtain ⟨g, rfl⟩ : ∃ g, f = g + 1 + 1 + 1 := ⟨f - 3, by omega⟩
  have hn := bool_parse_success b hwf (g + 1) rest h1 h2 h3 h4 h5 (by omega)
  have hand : parse_and (g + 1 + 1) (print_bool b ++ rest) = some (b, rest) := by
    cases rest with
    | nil =>
      rw [List.append_nil] at hn ⊢
      simp [parse_and, hn, parse_and_tail_nil]
    | cons w rs =>
      have hw : w ≠ "and" := by intro e; rw [e] at h6; exact h6 rfl
      simp [parse_and, hn, parse_and_tail_stop _ _ _ _ hw]
  cases rest with
  | nil =>
    rw [List.append_nil] at hand ⊢
    simp [parse_or, hand, parse_or_tail_nil]
  | cons w rs =>
    have hw : w ≠ "or" := by intro e; rw [e] at h7; exact h7 rfl
    simp [parse_or, hand, parse_or_tail_stop _ _ _ _ hw]

/-- The head word of a printed boolean selector is never an arity prefix. -/
lemma print_bool_head_ne_arity_marker (b : BAst) (w : String) (tws : List String)
    (h : print_bool b = w :: tws) :
    w ≠ "pairs:" ∧ w ≠ "three:" ∧ w ≠ "four:" := by
  cases b with
  | math op l r =>
    obtain ⟨w2, t2, hpm⟩ : ∃ w2 t2, print_math l = w2 :: t2 := by
      cases hh : print_math l with
      | nil => exact absurd hh (print_math_ne_nil l)
      | cons w2 t2 => exact ⟨w2, t2, rfl⟩
    have hw := print_math_head_facts l w2 t2 hpm
    rw [show print_bool (BAst.math op l r) =
      print_math l ++ (cmp_word op :: print_math r) from by simp [print_bool],
      hpm, List.cons_append] at h
    obtain ⟨rfl, -⟩ := List.cons.inj h
    exact ⟨hw.2.2.2.2.2.1, hw.2.2.2.2.2.2.1, hw.2.2.2.2.2.2.2⟩
  | str p eq arg v =>
    simp [print_bool] at h
    obtain ⟨rfl, -⟩ := h
    cases p <;> exact ⟨by decide, by decide, by decide⟩
  | all =>
    simp [print_bool] at h
    obtain ⟨rfl, -⟩ := h
    exact ⟨by decide, by decide, by decide⟩
  | none_ =>
    simp [print_bool] at h
    obtain ⟨rfl, -⟩ := h
    exact ⟨by decide, by decide, by decide⟩
  | not_ a =>
    simp [print_bool] at h
    obtain ⟨rfl, -⟩ := h
    exact ⟨by decide, by decide, by decide⟩
  | and_ l r =>
    simp [print_bool] at h
    obtain ⟨rfl, -⟩ := h
    exact ⟨by decide, by decide, by decide⟩
  | or_ l r =>
    simp [print_bool] at h
    obtain ⟨rfl, -⟩ := h
    exact ⟨by decide, by decide, by decide⟩

/-- `parse_selection_words` only returns selections with well-formed ASTs. -/
lemma parse_selection_words_wf (ws : List String) (sel : Selection)
    (h : parse_selection_words ws = some sel) : wf_bool sel.ast := by
  unfold parse_selection_words at h
  dsimp only at h
  split at h
  case h_2 =>
    split at h
    case h_1 b hb => obtain rfl := Option.some.inj h; exact (parse_wf_bundle _).1 _ _ hb
    case h_2 => cases h
  case h_1 w rest =>
    split at h
    · split at h
      case h_1 b hb => obtain rfl := Option.some.inj h; exact (parse_wf_bundle _).1 _ _ hb
      case h_2 => cases h
    · split at h
      · split at h
        case h_1 b hb => obtain rfl := Option.some.inj h; exact (parse_wf_bundle _).1 _ _ hb
        case h_2 => cases h
      · split at h
        · split at h
          case h_1 b hb =>
            obtain rfl := Option.some.inj h; exact (parse_wf_bundle _).1 _ _ hb
          case h_2 => cases h
        · split at h
          case h_1 b hb =>
            obtain rfl := Option.some.inj h; exact (parse_wf_bundle _).1 _ _ hb
          case h_2 => cases h

/-- Printing a selection with a well-formed AST and reparsing gives the
selection back. -/
lemma parse_selection_words_print (ar : Arity) (b : BAst) (hwf : wf_bool b) :
    parse_selection_words (print_selection (Selection.mk ar b)) =
      some (Selection.mk ar b) := by
  have hlen := bsize_le_print_length b
  have hor : ∀ F, 16 * bsize b + 11 ≤ F →
      parse_or F (print_bool b) = some (b, []) := by
    intro F hF
    have := parse_or_success b hwf F [] (by simp) (by simp) (by simp) (by simp)
      (by simp) (by simp) (by simp) hF
    rwa [List.append_nil] at this
  obtain ⟨w, tws, hpb⟩ : ∃ w tws, print_bool b = w :: tws := by
    cases hh : print_bool b with
    | nil => exact absurd hh (print_bool_ne_nil b)
    | cons w tws => exact ⟨w, tws, rfl⟩
  have hq := print_bool_head_ne_arity_marker b w tws hpb
  cases ar with
  | one =>
    have hps : print_selection (Selection.mk Arity.one b) = print_bool b := by
      simp [print_selection]
    rw [hps]
    unfold parse_selection_words
    rw [hpb]
    dsimp only
    rw [if_neg hq.1, if_neg hq.2.1, if_neg hq.2.2, ← hpb]
    rw [hor _ (by omega)]
  | pairs =>
    have hps : print_selection (Selection.mk Arity.pairs b) =
        "pairs:" :: print_bool b := by
      simp [print_selection]
    rw [hps]
    unfold parse_selection_words
    dsimp only
    rw [if_pos rfl]
    rw [hor _ (by simp [List.length_cons]; omega)]
  | three =>
    have hps : print_selection (Selection.mk Arity.three b) =
        "three:" :: print_bool b := by
      simp [print_selection]
    rw [hps]
    unfold parse_selection_words
    dsimp only
    rw [if_neg (by decide), if_pos rfl]
    rw [hor _ (by simp [List.length_cons]; omega)]
  | four =>
    have hps : print_selection (Selection.mk Arity.four b) =
        "four:" :: print_bool b := by
      simp [print_selection]
    rw [hps]
    unfold parse_selection_words
    dsimp only
    rw [if_neg (by decide), if_neg (by decide), if_pos rfl]
    rw [hor _ (by simp [List.length_cons]; omega)]

/-- C7: for every parseable selection word sequence `ws`, printing the
parsed selection yields a word sequence that parses back to a selection
equal to the one parsed from `ws`: parse followed by print is a fixed
point (modulo whitespace, since the embedding works on word lists). -/
theorem selection_parse_print_roundtrip (ws : List String) (sel : Selection)
    (h : parse_selection_words ws = some sel) :
    parse_selection_words (print_selection sel) = some sel := by
  have hwf := parse_selection_words_wf ws sel h
  obtain ⟨ar, b⟩ := sel
  exact parse_selection_words_print ar b hwf

/-- Witness for C7 at the concrete selection string `name == CA`. -/
theorem selection_parse_print_roundtrip_witness :
    parse_selection_words ["name", "==", "CA"] =
      some (Selection.mk Arity.one (BAst.str SProp.name true 1 "CA")) ∧
    parse_selection_words
        (print_selection (Selection.mk Arity.one (BAst.str SProp.name true 1 "CA"))) =
      some (Selection.mk Arity.one (BAst.str SProp.name true 1 "CA")) :=
  ⟨by decide,
   selection_parse_print_roundtrip ["name", "==", "CA"]
     (Selection.mk Arity.one (BAst.str SProp.name true 1 "CA")) (by decide)⟩
